import Mathlib

/-!
Verification development for the PrinterChess pathfinding core
(`printer_sim.py`, with the unit-space router of `pathfinder.py`).

Conventions of the embedding:
* Squares are `0..63` with `sq = rank * 8 + file` (python-chess layout).
* Pixel geometry is exact: `MARGIN = 32`, `SQUARE = 72`, so the center of
  square `(r, c)` is `(68 + 72*c, 572 - 72*r)` and all corridor-node
  coordinates are integers.  The planner layer works in integer fifths of a
  pixel (every float constant there is a multiple of `0.2` px, so Python's
  float arithmetic on them is exact and the ×5 scaling loses nothing);
  real numbers stand in for floats in the animator.
* Python dicts keyed by nodes are association lists consed at the front
  (`List.lookup` returns the most recent binding, as overwriting does).
* `heapq` is modelled by `findMin`/`erase`: `heappop` returns the minimum
  of the multiset of `(f, node)` entries under the lexicographic order that
  Python tuple comparison induces (`"C" < "H" < "V"`, then `r`, then `c`),
  which is independent of the push order.
* Exceptions (`RuntimeError` on failed planning) are `Option.none`.
-/

namespace PrinterSim

/-- Corridor-node kind: `C` = square center, `H` = midpoint between
horizontally adjacent centers, `V` = midpoint between vertically adjacent
centers (`build_corridor_graph` in printer_sim.py). -/
inductive NT
  | C
  | H
  | V
deriving DecidableEq

/-- A corridor-graph node `(t, r, c)` as in printer_sim.py. -/
abbrev Node := NT × ℕ × ℕ

/-- Numeric code of the node tag giving Python's string order
`"C" < "H" < "V"`. -/
def tcode : NT → ℕ
  | NT.C => 0
  | NT.H => 1
  | NT.V => 2

/-- Exact pixel coordinates of a node (`node_xy`): centers are at
`(68 + 72 c, 572 - 72 r)`; midpoints average the two flanking centers. -/
def nodeXY : Node → ℤ × ℤ
  | (NT.C, r, c) => (68 + 72 * (c : ℤ), 572 - 72 * (r : ℤ))
  | (NT.H, r, c) => (104 + 72 * (c : ℤ), 572 - 72 * (r : ℤ))
  | (NT.V, r, c) => (68 + 72 * (c : ℤ), 536 - 72 * (r : ℤ))

/-- Adjacency lists of the corridor graph built by `build_corridor_graph`:
each `H`/`V` midpoint links exactly its two flanking centers. -/
def edges : Node → List Node
  | (NT.C, r, c) =>
      (if 1 ≤ c then [((NT.H, r, c - 1) : Node)] else []) ++
      (if c ≤ 6 then [((NT.H, r, c) : Node)] else []) ++
      (if 1 ≤ r then [((NT.V, r - 1, c) : Node)] else []) ++
      (if r ≤ 6 then [((NT.V, r, c) : Node)] else [])
  | (NT.H, r, c) => [(NT.C, r, c), (NT.C, r, c + 1)]
  | (NT.V, r, c) => [(NT.C, r, c), (NT.C, r + 1, c)]

/-- The `heuristic` of printer_sim.py: Manhattan distance between the pixel
coordinates of the two nodes (an exact integer). -/
def heuristic (a b : Node) : ℕ :=
  ((nodeXY a).1 - (nodeXY b).1).natAbs + ((nodeXY a).2 - (nodeXY b).2).natAbs

/-- Strict lexicographic order on heap entries `(f, node)`, matching Python
tuple comparison of `(f, ("C"|"H"|"V", r, c))`. -/
def keyLt (a b : ℕ × Node) : Bool :=
  decide (a.1 < b.1) ||
    (decide (a.1 = b.1) &&
      (decide (tcode a.2.1 < tcode b.2.1) ||
        (decide (tcode a.2.1 = tcode b.2.1) &&
          (decide (a.2.2.1 < b.2.2.1) ||
            (decide (a.2.2.1 = b.2.2.1) && decide (a.2.2.2 < b.2.2.2))))))

/-- Minimum entry of the open multiset (the entry `heapq.heappop` yields);
among equal keys the result is the unique minimal value. -/
def findMin : List (ℕ × Node) → Option (ℕ × Node)
  | [] => none
  | e :: es => some (es.foldl (fun acc x => if keyLt x acc then x else acc) e)

/-- Search state of `a_star`: the open heap (as a multiset), the `came`
predecessor dict and the `g` cost dict (most recent binding first). -/
structure AState where
  openh : List (ℕ × Node)
  came : List (Node × Option Node)
  g : List (Node × ℕ)
deriving DecidableEq

/-- The blocked-center skip test of the neighbour loop in `a_star`:
a center node other than the goal is skipped when its square is blocked. -/
def okNode (blocked : ℕ → ℕ → Bool) (goal : Node) (n : Node) : Bool :=
  if n.1 = NT.C ∧ blocked n.2.1 n.2.2 = true ∧ n ≠ goal then false else true

/-- One neighbour relaxation of `a_star`: skip blocked non-goal centers,
otherwise tentative cost `g[cur] + 1`, updating `g`, `came` and the heap
when it strictly improves. -/
def relaxNb (goal : Node) (blocked : ℕ → ℕ → Bool) (cur : Node) (gcur : ℕ)
    (st : AState) (nb : Node) : AState :=
  if nb.1 = NT.C ∧ blocked nb.2.1 nb.2.2 = true ∧ nb ≠ goal then st
  else
    let t := gcur + 1
    let improve : Bool :=
      match List.lookup nb st.g with
      | some gn => decide (t < gn)
      | none => true
    if improve then
      { openh := (t + heuristic nb goal, nb) :: st.openh
        came := (nb, some cur) :: st.came
        g := (nb, t) :: st.g }
    else st

/-- Path reconstruction of `a_star` (the `while n is not None` loop),
following `came` parents back to the start; the fuel is irrelevant in any
reachable state because parent chains strictly decrease `g`. -/
def reconstruct (came : List (Node × Option Node)) :
    ℕ → Node → List Node → Option (List Node)
  | 0, _, _ => none
  | fuel + 1, n, acc =>
    match List.lookup n came with
    | none => none
    | some none => some (n :: acc)
    | some (some m) => reconstruct came fuel m (n :: acc)

/-- Main loop of `a_star`: pop the minimal `(f, node)` entry, return the
reconstructed path once the goal pops, otherwise relax all neighbours of
the popped node using its current `g` value (lazy deletion, no closed set).
The fuel only rules out divergence; it is provably never exhausted. -/
def astarLoop (goal : Node) (blocked : ℕ → ℕ → Bool) :
    ℕ → AState → Option (List Node)
  | 0, _ => none
  | fuel + 1, st =>
    match findMin st.openh with
    | none => none
    | some e =>
      let cur := e.2
      if cur = goal then
        reconstruct st.came (st.came.length + 1) cur []
      else
        let gcur := (List.lookup cur st.g).getD 0
        astarLoop goal blocked fuel
          ((edges cur).foldl (relaxNb goal blocked cur gcur)
            { st with openh := st.openh.erase e })

/-- Fuel bound for the search loop; the loop measure proof shows at most
`5 * 177 * 176 + 1` iterations can ever happen, far below this. -/
def FUEL : ℕ := 200000

/-- `a_star(start, goal, is_blocked_center)` of printer_sim.py. -/
def a_star (start goal : Node) (blocked : ℕ → ℕ → Bool) : Option (List Node) :=
  astarLoop goal blocked FUEL ⟨[(0, start)], [(start, none)], [(start, 0)]⟩

/-- Adjacency chain test: consecutive path nodes are graph neighbours. -/
def chainAdjB : List Node → Bool
  | [] => true
  | [_] => true
  | a :: b :: rest => decide (b ∈ edges a) && chainAdjB (b :: rest)

/-- A valid corridor route for a given blocked predicate: starts at
`start`, ends at `goal`, follows graph edges, and every node after the
first passes the blocked-center test (goal exempt). -/
def isRouteB (blocked : ℕ → ℕ → Bool) (start goal : Node) (p : List Node) : Bool :=
  decide (p.head? = some start) && decide (p.getLast? = some goal) &&
    chainAdjB p && p.tail.all (okNode blocked goal)

/-- All 176 nodes of the corridor graph: 64 centers, 56 horizontal
midpoints, 56 vertical midpoints (the build order of the source). -/
def nodesList : List Node :=
  ((List.range 8).flatMap fun r => (List.range 8).map fun c => ((NT.C, r, c) : Node)) ++
    ((List.range 8).flatMap fun r => (List.range 7).map fun c => ((NT.H, r, c) : Node)) ++
    ((List.range 7).flatMap fun r => (List.range 8).map fun c => ((NT.V, r, c) : Node))

/-- Range predicate equivalent to membership in `nodesList`. -/
def inRange : Node → Bool
  | (NT.C, r, c) => decide (r ≤ 7) && decide (c ≤ 7)
  | (NT.H, r, c) => decide (r ≤ 7) && decide (c ≤ 6)
  | (NT.V, r, c) => decide (r ≤ 6) && decide (c ≤ 7)

/-! ### Boards, moves and the planner layer

Planner geometry uses exact integer coordinates in units of one fifth of a
pixel ("scaled pixels", written ×5 below).  Every float constant of the
source is a multiple of `0.2` px (e.g. `SQUARE*0.6 = 43.2` px `= 216`,
`SQUARE*0.9 = 64.8` px `= 324`, `SQUARE*0.45 = 32.4` px `= 162`), so the
scaling is exact and Python's float arithmetic on these values is exact as
well.  Thus `MARGIN = 160`, `SQUARE = 360`, `BOARD_PIXELS = 3200`,
`SIDEBAR_W = 480`, `WIN_H = 3480`, and the center of square `(r, c)` is
`(340 + 360*c, 2860 - 360*r)`. -/

/-- Python `abs` on integers. -/
def iabs (x : ℤ) : ℤ :=
  if x < 0 then -x else x

/-- A chess piece as the planners see it: python-chess piece type
(`PAWN = 1 … KING = 6`) and color (`WHITE = true`). -/
structure Piece where
  ptype : ℕ
  color : Bool
deriving DecidableEq

/-- Board snapshot: an association list from squares `rank*8 + file` to
pieces, plus the en-passant target square (`board.ep_square`). -/
structure Board where
  pieces : List (ℕ × Piece)
  ep : Option ℕ
deriving DecidableEq

/-- A move `from_square → to_square` (UCI promotions are irrelevant to the
planners). -/
structure Move where
  fromSq : ℕ
  toSq : ℕ
deriving DecidableEq

/-- `board.piece_at(sq)`. -/
def piece_at (b : Board) (sq : ℕ) : Option Piece :=
  List.lookup sq b.pieces

/-- `chess.square_rank`. -/
def sq_rank (sq : ℕ) : ℕ := sq / 8

/-- `chess.square_file`. -/
def sq_file (sq : ℕ) : ℕ := sq % 8

/-- Membership of `(r, c)` in `board_occupied_rc(board)`. -/
def occB (b : Board) (r c : ℕ) : Bool :=
  (piece_at b (r * 8 + c)).isSome

/-- Planner points: scaled-pixel integer coordinates. -/
abbrev Point := ℤ × ℤ

/-- `rc_to_center_xy(r, c)` (×5). -/
def rc_to_center_xy (r c : ℕ) : Point :=
  (340 + 360 * (c : ℤ), 2860 - 360 * (r : ℤ))

/-- `node_xy` in scaled pixels (×5 of `nodeXY`). -/
def nodeXYS (n : Node) : Point :=
  (5 * (nodeXY n).1, 5 * (nodeXY n).2)

/-- The occupancy predicate of `plan_corridor_path`: blocked iff occupied
and not the source square (the goal is exempted inside `a_star`). -/
def plan_corridor_blocked (b : Board) (src : ℕ) : ℕ → ℕ → Bool := fun r c =>
  occB b r c && !(decide (r = sq_rank src) && decide (c = sq_file src))

/-- `plan_corridor_path(board, src_sq, dst_sq)`: A* between the two square
centers under `plan_corridor_blocked`; the `RuntimeError` on a falsy
result is `none`. -/
def plan_corridor_path (b : Board) (src dst : ℕ) : Option (List Point) :=
  match a_star (NT.C, sq_rank src, sq_file src) (NT.C, sq_rank dst, sq_file dst)
      (plan_corridor_blocked b src) with
  | none => none
  | some ns => if ns = [] then none else some (ns.map nodeXYS)

/-- Manhattan distance between planner points. -/
def manhattanS (p q : Point) : ℤ :=
  iabs (p.1 - q.1) + iabs (p.2 - q.2)

/-- `nearest_node_to_xy(xy)`: fold over the node set keeping the first
strictly-smaller Manhattan distance (initial best distance `1e18` px,
i.e. `5e18` scaled). -/
def nearest_node_to_xy (xy : Point) : Node :=
  (nodesList.foldl
    (fun acc n =>
      let d := manhattanS (nodeXYS n) xy
      if d < acc.2 then (n, d) else acc)
    (((NT.C, 0, 0) : Node), (5 * 10 ^ 18 : ℤ))).1

/-- `corridor_between_points(board, xy_start, xy_end)`: A* between the
nodes nearest to the two points, exempting the squares under those nodes
when they are centers. -/
def corridor_between_points (b : Board) (xys xye : Point) : Option (List Point) :=
  let start := nearest_node_to_xy xys
  let goal := nearest_node_to_xy xye
  let exempt : List (ℕ × ℕ) :=
    (if start.1 = NT.C then [(start.2.1, start.2.2)] else []) ++
      (if goal.1 = NT.C then [(goal.2.1, goal.2.2)] else [])
  let blocked : ℕ → ℕ → Bool := fun r c =>
    occB b r c && !(exempt.contains (r, c))
  match a_star start goal blocked with
  | none => none
  | some ns => if ns = [] then none else some (ns.map nodeXYS)

/-- `is_en_passant(board, move)`: a pawn moving diagonally onto an empty
square that equals the board's en-passant target. -/
def is_en_passant (b : Board) (m : Move) : Bool :=
  match piece_at b m.fromSq with
  | none => false
  | some p =>
    if p.ptype ≠ 1 then false
    else if sq_file m.fromSq = sq_file m.toSq then false
    else (piece_at b m.toSq).isNone && decide (b.ep = some m.toSq)

/-- `plan_knight_route_on_lines(board, move)`: the closed-form three-leg
route for true knight offsets (half square = 180, two squares = 720),
falling back to `plan_corridor_path` for any other offset (there is no
assertion in the source). -/
def plan_knight_route_on_lines (b : Board) (m : Move) : Option (List Point) :=
  let r0 := sq_rank m.fromSq
  let c0 := sq_file m.fromSq
  let r1 := sq_rank m.toSq
  let c1 := sq_file m.toSq
  let dr : ℤ := (r1 : ℤ) - (r0 : ℤ)
  let dc : ℤ := (c1 : ℤ) - (c0 : ℤ)
  let x0 := (rc_to_center_xy r0 c0).1
  let y0 := (rc_to_center_xy r0 c0).2
  let x1 := (rc_to_center_xy r1 c1).1
  let y1 := (rc_to_center_xy r1 c1).2
  if iabs dr = 2 ∧ iabs dc = 1 then
    let dirx : ℤ := if 0 < dc then 1 else -1
    let lanex := x0 + dirx * 180
    let diry : ℤ := if 0 < dr then -1 else 1
    some [(x0, y0), (lanex, y0), (lanex, y0 + diry * 720), (x1, y1)]
  else if iabs dr = 1 ∧ iabs dc = 2 then
    let diry : ℤ := if 0 < dr then -1 else 1
    let laney := y0 + diry * 180
    let dirx : ℤ := if 0 < dc then 1 else -1
    some [(x0, y0), (x0, laney), (x0 + dirx * 720, laney), (x1, y1)]
  else plan_corridor_path b m.fromSq m.toSq

/-- The edge selection of `plan_margin_escape_path`: Python's `min` with a
key returns the first item attaining the minimum, over the list
`[left, right, top, bottom]` (encoded `0,1,2,3`); the borders sit at
`MARGIN = 160` and `BOARD_PIXELS - MARGIN = 3040`. -/
def nearestEdge (cx cy : ℤ) : ℕ :=
  ([((1 : ℕ), iabs (3040 - cx)), (2, iabs (cy - 160)), (3, iabs (3040 - cy))].foldl
    (fun acc x => if x.2 < acc.2 then x else acc) (0, iabs (cx - 160))).1

/-- `plan_margin_escape_path(cap_xy, grave_xy)`: half-square sidestep
(180) toward the nearest edge, a point `0.6` squares (216) outside the
border, then align with the graveyard slot and enter it. -/
def plan_margin_escape_path (cap grave : Point) : List Point :=
  let cx := cap.1
  let cy := cap.2
  let e := nearestEdge cx cy
  if e = 0 ∨ e = 1 then
    let dirx : ℤ := if e = 0 then -1 else 1
    let lanex := cx + dirx * 180
    let borderx : ℤ := if e = 0 then 160 else 3040
    let outx := borderx + dirx * 216
    [cap, (lanex, cy), (outx, cy), (grave.1, cy), grave]
  else
    let diry : ℤ := if e = 2 then -1 else 1
    let laney := cy + diry * 180
    let bordery : ℤ := if e = 2 then 160 else 3040
    let outy := bordery + diry * 216
    [cap, (cx, laney), (cx, outy), (cx, grave.2), grave]

/-- The 20 sidebar slots built by `init_grave_positions`: 10 rows × 2
columns starting at `x0 = BOARD_PIXELS = 3200` with column width 240,
row pitch `0.9` squares (324) and center offset `0.45` squares (162). -/
def grave_positions : List Point :=
  (List.range 10).flatMap fun r => (List.range 2).map fun c =>
    ((3200 + (c : ℤ) * 240 + 120, 160 + (r : ℤ) * 324 + 162) : Point)

/-- Slot for a given per-color capture ordinal (`next_grave_xy` with
`idx = len(arr)`): a grid slot while one is left, otherwise the overflow
lane at `x = BOARD_PIXELS + SIDEBAR_W/2 = 3440`,
`y = WIN_H - INPUT_H - 20 - 10*idx = 3100 - 50*idx`. -/
def grave_slot (idx : ℕ) : Point :=
  if idx < grave_positions.length then grave_positions.getD idx (0, 0)
  else (3440, 3100 - 50 * (idx : ℤ))

/-- `next_grave_xy(color)` with the global capture lists replaced by their
lengths `nW = len(captured_white)`, `nB = len(captured_black)`. -/
def next_grave_xy (color : Bool) (nW nB : ℕ) : Point :=
  grave_slot (if color then nW else nB)

/-- `board.remove_piece_at(sq)` restricted to what the planners read:
afterwards no piece is at `sq`. -/
def remove_piece_at (b : Board) (sq : ℕ) : Board :=
  { b with pieces := b.pieces.filter fun kv => decide (kv.1 ≠ sq) }

/-- `board.push` of the quiet rook relocation inside `plan_castling`,
restricted to what the planner reads (occupancy): the piece leaves
`fromSq` and sits on `toSq`. -/
def push_simple (b : Board) (m : Move) : Board :=
  match piece_at b m.fromSq with
  | none => b
  | some p =>
    { b with
      pieces := (m.toSq, p) ::
        b.pieces.filter fun kv => decide (kv.1 ≠ m.fromSq) && decide (kv.1 ≠ m.toSq) }

/-- The captured square determined inside `plan_capture_sequence`:
`chess.square(file of dst, rank of src)` under en passant, else `dst`. -/
def captured_square (b : Board) (m : Move) : ℕ :=
  if is_en_passant b m then sq_rank m.fromSq * 8 + sq_file m.toSq
  else m.toSq

/-- The `captured_color` read inside `plan_capture_sequence`: the color of
the piece on the captured square (`True`, i.e. white, if the square is
unexpectedly empty). -/
def captured_color_of (b : Board) (sq : ℕ) : Bool :=
  match piece_at b sq with
  | some p => p.color
  | none => true

/-- The shared move-leg dispatch of the sequencers: the piece type is read
off the board `b`, the route is planned on the board `tb` (`temp` with the
captured piece removed inside `plan_capture_sequence`, `b` itself inside
`plan_normal_move`): knights take the line route, everything else the
corridor route. -/
def plan_move_leg (b tb : Board) (m : Move) : Option (List Point) :=
  match piece_at b m.fromSq with
  | some p =>
    if p.ptype = 2 then plan_knight_route_on_lines tb m
    else plan_corridor_path tb m.fromSq m.toSq
  | none => plan_corridor_path tb m.fromSq m.toSq

/-- An engaged/disengaged travel segment of a plan. -/
structure Segment where
  waypoints : List Point
  magnetOn : Bool
deriving DecidableEq

/-- `plan_capture_sequence(board, move)` with the graveyard globals passed
as the two list lengths; returns `(segments, captured_color, grave_xy)`
or `none` where the source raises. -/
def plan_capture_sequence (b : Board) (m : Move) (nW nB : ℕ) :
    Option (List Segment × Bool × Point) :=
  let cap_sq := captured_square b m
  let captured_color := captured_color_of b cap_sq
  match plan_corridor_path b m.fromSq cap_sq with
  | none => none
  | some path_to_target =>
    if path_to_target = [] then none
    else
      let cap_xy := rc_to_center_xy (sq_rank cap_sq) (sq_file cap_sq)
      let grave_xy := next_grave_xy captured_color nW nB
      let temp := remove_piece_at b cap_sq
      let margin0 := plan_margin_escape_path cap_xy grave_xy
      let margin_path := if margin0 = [] then [cap_xy, grave_xy] else margin0
      let src_xy := rc_to_center_xy (sq_rank m.fromSq) (sq_file m.fromSq)
      match corridor_between_points temp grave_xy src_xy with
      | none => none
      | some path_back =>
        match plan_move_leg b temp m with
        | none => none
        | some path_src_to_dst =>
          some
            ([⟨path_to_target, false⟩,
              ⟨[path_to_target.getLastD (0, 0)], true⟩,
              ⟨margin_path, true⟩,
              ⟨[margin_path.getLastD (0, 0)], false⟩,
              ⟨path_back, false⟩,
              ⟨path_src_to_dst, true⟩,
              ⟨[path_src_to_dst.getLastD (0, 0)], false⟩],
             captured_color, grave_xy)

/-- `plan_normal_move(board, move)`: knight route for knights, corridor
route otherwise; one engaged travel segment plus a zero-length disengage. -/
def plan_normal_move (b : Board) (m : Move) : Option (List Segment) :=
  match plan_move_leg b b m with
  | none => none
  | some path =>
    some [⟨path, true⟩, ⟨[path.getLastD (0, 0)], false⟩]

/-- `plan_castling(board, move)`: rook corridor route on the pre-move
snapshot, then king corridor route after relocating the rook
(`h/f` files kingside, `a/d` files queenside, on the king's rank). -/
def plan_castling (b : Board) (m : Move) : Option (List Segment) :=
  let king_rank := sq_rank m.fromSq
  let kingside := sq_file m.fromSq < sq_file m.toSq
  let rook_from := king_rank * 8 + (if kingside then 7 else 0)
  let rook_to := king_rank * 8 + (if kingside then 5 else 3)
  match plan_corridor_path b rook_from rook_to with
  | none => none
  | some rook_path =>
    let tmp := push_simple b ⟨rook_from, rook_to⟩
    match plan_corridor_path tmp m.fromSq m.toSq with
    | none => none
    | some king_path =>
      some [⟨rook_path, true⟩, ⟨[rook_path.getLastD (0, 0)], false⟩,
            ⟨king_path, true⟩, ⟨[king_path.getLastD (0, 0)], false⟩]


/-! ### A* search invariants -/

/-- A g-consistent simple path witnessing a recorded `g` value: a
duplicate-free edge path from `start` whose every node's current `g`
value is bounded by its position. -/
def GCPath (start : Node) (g : List (Node × ℕ)) (n : Node) (b : ℕ) : Prop :=
  ∃ P : List Node, P.Nodup ∧ P.head? = some start ∧ P.getLast? = some n ∧
    List.Chain' (fun a b' => b' ∈ edges a) P ∧ P.length = b + 1 ∧
    ∀ i : ℕ, ∀ hi : i < P.length, ∃ bm, List.lookup (P.get ⟨i, hi⟩) g = some bm ∧ bm ≤ i

/-- Loop invariant of `a_star` (soundness and completeness parts
together), for a fixed blocked predicate, goal and start. -/
structure Inv (blocked : ℕ → ℕ → Bool) (goal start : Node) (st : AState) : Prop where
  gstart : List.lookup start st.g = some 0
  cstart : List.lookup start st.came = some none
  cnone : ∀ n, List.lookup n st.came = some none → n = start
  cparent : ∀ n m, List.lookup n st.came = some (some m) →
    n ∈ edges m ∧ okNode blocked goal n = true ∧
    ∃ a b, List.lookup m st.g = some a ∧ List.lookup n st.g = some b ∧ a < b ∧
      (List.lookup m st.came).isSome
  openc : ∀ e ∈ st.openh, (List.lookup e.2 st.came).isSome ∧ (List.lookup e.2 st.g).isSome
  gbound : ∀ n b, List.lookup n st.g = some b → b ≤ st.came.length
  grange : ∀ n, (List.lookup n st.g).isSome → inRange n = true
  gpath : ∀ n b, List.lookup n st.g = some b → GCPath start st.g n b
  processed : ∀ n, (List.lookup n st.g).isSome →
    (∃ f, (f, n) ∈ st.openh) ∨
    (n ≠ goal ∧ ∀ nb ∈ edges n, okNode blocked goal nb = true →
      ∃ bn bnb, List.lookup n st.g = some bn ∧ List.lookup nb st.g = some bnb ∧
        bnb ≤ bn + 1)

/-- Default-177 view of the `g` dict, used by the loop measure. -/
def gvalD (g : List (Node × ℕ)) (n : Node) : ℕ :=
  (List.lookup n g).getD 177

/-- Total recorded cost over the node set. -/
def sigmaG (g : List (Node × ℕ)) : ℕ :=
  (nodesList.map (gvalD g)).sum

/-- The strictly decreasing loop measure: every iteration pops one heap
entry and each relaxation trades a `≥ 1` drop of `sigmaG` for one push. -/
def loopMeasure (st : AState) : ℕ :=
  5 * sigmaG st.g + st.openh.length

/-- Invariant carried through the neighbour-relaxation fold of one loop
iteration: the `Inv` fields with `processed` weakened to exempt the node
being expanded, plus bookkeeping for the current node and the measure. -/
structure RelaxInv (blocked : ℕ → ℕ → Bool) (goal start cur : Node) (gcur : ℕ)
    (base : ℕ) (st : AState) : Prop where
  gstart : List.lookup start st.g = some 0
  cstart : List.lookup start st.came = some none
  cnone : ∀ n, List.lookup n st.came = some none → n = start
  cparent : ∀ n m, List.lookup n st.came = some (some m) →
    n ∈ edges m ∧ okNode blocked goal n = true ∧
    ∃ a b, List.lookup m st.g = some a ∧ List.lookup n st.g = some b ∧ a < b ∧
      (List.lookup m st.came).isSome
  openc : ∀ e ∈ st.openh, (List.lookup e.2 st.came).isSome ∧ (List.lookup e.2 st.g).isSome
  gbound : ∀ n b, List.lookup n st.g = some b → b ≤ st.came.length
  grange : ∀ n, (List.lookup n st.g).isSome → inRange n = true
  gpath : ∀ n b, List.lookup n st.g = some b → GCPath start st.g n b
  procX : ∀ n, (List.lookup n st.g).isSome → n = cur ∨ (∃ f, (f, n) ∈ st.openh) ∨
    (n ≠ goal ∧ ∀ nb ∈ edges n, okNode blocked goal nb = true →
      ∃ bn bnb, List.lookup n st.g = some bn ∧ List.lookup nb st.g = some bnb ∧ bnb ≤ bn + 1)
  curg : List.lookup cur st.g = some gcur
  curcame : (List.lookup cur st.came).isSome
  meas : loopMeasure st ≤ base

/-- The captured square's center as computed inside `plan_capture_sequence`. -/
def capture_cap_xy (b : Board) (m : Move) : Point :=
  rc_to_center_xy (sq_rank (captured_square b m)) (sq_file (captured_square b m))

/-- The graveyard slot chosen inside `plan_capture_sequence`. -/
def capture_grave_xy (b : Board) (m : Move) (nW nB : ℕ) : Point :=
  next_grave_xy (captured_color_of b (captured_square b m)) nW nB

end PrinterSim

namespace PathFinderPy

/-! Unit-space helpers of `pathfinder.py` (one square = 1×1, centers at
`(f + 0.5, r + 0.5)`, corridor lines at integer coordinates).  Here the
exact integer scale is ×20 of a board unit, so a square is 20×20, centers
are `(10 + 20 f, 10 + 20 r)`, corridor lines sit at multiples of 20, and
the graveyard constants `margin_units = 0.25`, `spacing = 0.9` become `5`
and `18`. -/

/-- `center_of((f, r))` (×20). -/
def center_of (fr : ℕ × ℕ) : ℤ × ℤ :=
  (20 * (fr.1 : ℤ) + 10, 20 * (fr.2 : ℤ) + 10)

/-- `PathFinder.path_knight_units`: horizontal-first fixed 4-point route
through the corridor lines `min(file)+1` and `min(rank)+1` (×20). -/
def path_knight_units (frFrom frTo : ℕ × ℕ) : List (ℤ × ℤ) :=
  let s := center_of frFrom
  let d := center_of frTo
  let xline : ℤ :=
    if frFrom.1 < frTo.1 then 20 * ((frFrom.1 : ℤ) + 1) else 20 * ((frTo.1 : ℤ) + 1)
  let yline : ℤ :=
    if frFrom.2 < frTo.2 then 20 * ((frFrom.2 : ℤ) + 1) else 20 * ((frTo.2 : ℤ) + 1)
  [s, (xline, s.2), (xline, yline), d]

/-- `CaptureGraveyard.next_slot` as a function of the running capture
count, with the default `margin_units = 10/40` (×20: the first column
center is `8.75` units `= 175`, the spacing `0.9` units `= 18`). -/
def pf_next_slot (count : ℕ) : ℤ × ℤ :=
  (175 + ((count / 8 : ℕ) : ℤ) * 18, 10 + ((count % 8 : ℕ) : ℤ) * 18)

end PathFinderPy

namespace PrinterSim

/-! ### The Animator

The tick-driven execution state machine (`class Animator`).  Positions are
pairs of real numbers standing in for Python floats; the speeds are
`DRAG_SPEED_PX = 5` (engaged) and `TRAVEL_SPEED_PX = 8` (disengaged), the
snap threshold is `1e-3`, the division guard is `1e-9` and the trace
deduplication threshold is `0.5`, all exact here. -/

/-- A plan segment as the animator consumes it (`{"waypoints": …,
"magnet_on": …}`). -/
structure ASeg where
  waypoints : List (ℝ × ℝ)
  magnetOn : Bool

/-- The animator state: current segment and waypoint indices, position,
done flag and the accumulated engaged trace (`last_draw_path`). -/
structure AnimState where
  segments : List ASeg
  curSegI : ℕ
  curWpI : ℕ
  pos : Option (ℝ × ℝ)
  done : Bool
  lastDrawPath : List (ℝ × ℝ)

/-- `Animator.load(segments, start_pos)`: reset indices, `done` iff the
plan is empty, position from the first waypoint unless overridden. -/
noncomputable def Animator.load (segments : List ASeg) (startPos : Option (ℝ × ℝ)) :
    AnimState where
  segments := segments
  curSegI := 0
  curWpI := 0
  pos :=
    if startPos.isNone && !segments.isEmpty &&
        !(segments.headD ⟨[], false⟩).waypoints.isEmpty then
      ((segments.headD ⟨[], false⟩).waypoints).head?
    else startPos
  done := segments.isEmpty
  lastDrawPath := []

/-- `Animator._advance_segment`. -/
def advanceSegment (s : AnimState) : AnimState :=
  { s with
    curSegI := s.curSegI + 1
    curWpI := 0
    done := s.done || decide (s.segments.length ≤ s.curSegI + 1) }

/-- `Animator.current_magnet_on()`. -/
def current_magnet_on (s : AnimState) : Bool :=
  if s.done || s.segments.isEmpty then false
  else (s.segments.getD s.curSegI ⟨[], false⟩).magnetOn

/-- Euclidean length `math.hypot`. -/
noncomputable def hypot (dx dy : ℝ) : ℝ :=
  Real.sqrt (dx ^ 2 + dy ^ 2)

/-- `Animator.step()`: returns the updated state and the value the method
returns (the accumulated trace).  When the remaining distance is below
`1e-3` the waypoint index advances and, only while engaged, the waypoint
is appended to the trace; otherwise the position moves by at most the
speed toward the target and engaged intermediate positions further than
`0.5` (Manhattan) from the last trace entry are appended. -/
noncomputable def step (s : AnimState) : AnimState × List (ℝ × ℝ) :=
  if s.done || s.segments.isEmpty then (s, s.lastDrawPath)
  else
    let seg := s.segments.getD s.curSegI ⟨[], false⟩
    match seg.waypoints.head? with
    | none =>
      let s' := advanceSegment s
      (s', s'.lastDrawPath)
    | some w0 =>
      let pos := s.pos.getD w0
      let speed : ℝ := if seg.magnetOn then 5 else 8
      let target := seg.waypoints.getD s.curWpI (0, 0)
      let dx := target.1 - pos.1
      let dy := target.2 - pos.2
      let dist := hypot dx dy
      if dist < 1 / 1000 then
        let trace := if seg.magnetOn then s.lastDrawPath ++ [target] else s.lastDrawPath
        let s' := { s with pos := some pos, curWpI := s.curWpI + 1, lastDrawPath := trace }
        let s'' := if seg.waypoints.length ≤ s.curWpI + 1 then advanceSegment s' else s'
        (s'', trace)
      else
        let stp := min speed dist
        let nx := pos.1 + dx / (dist + 1 / 1000000000) * stp
        let ny := pos.2 + dy / (dist + 1 / 1000000000) * stp
        let trace :=
          if seg.magnetOn then
            match s.lastDrawPath.getLast? with
            | none => s.lastDrawPath ++ [(nx, ny)]
            | some l =>
              if 1 / 2 < |nx - l.1| + |ny - l.2| then s.lastDrawPath ++ [(nx, ny)]
              else s.lastDrawPath
          else s.lastDrawPath
        ({ s with pos := some (nx, ny), lastDrawPath := trace }, trace)

/-- Iterated ticks. -/
noncomputable def stepN (s : AnimState) : ℕ → AnimState
  | 0 => s
  | n + 1 => (step (stepN s n)).1

/-! ### Auxiliary predicates used by the claim statements -/

/-- True knight geometry: offset `(±1, ±2)` or `(±2, ±1)` between source
and destination squares. -/
def is_knight_offset (m : Move) : Bool :=
  let dr : ℤ := (sq_rank m.toSq : ℤ) - (sq_rank m.fromSq : ℤ)
  let dc : ℤ := (sq_file m.toSq : ℤ) - (sq_file m.fromSq : ℤ)
  (decide (iabs dr = 2) && decide (iabs dc = 1)) ||
    (decide (iabs dr = 1) && decide (iabs dc = 2))

/-- A point lies exactly on a corridor grid line
`x = MARGIN + k*SQUARE` or `y = MARGIN + k*SQUARE`, `k = 0..8`
(scaled: `160 + 360*k`). -/
def on_corridor_line (p : Point) : Bool :=
  ((List.range 9).any fun k => decide (p.1 = 160 + 360 * (k : ℤ))) ||
    ((List.range 9).any fun k => decide (p.2 = 160 + 360 * (k : ℤ)))

/-- A pathfinder.py unit-space point lies exactly on an integer corridor
line `x = 0..8` or `y = 0..8` (scaled ×20). -/
def on_unit_corridor_line (p : ℤ × ℤ) : Bool :=
  ((List.range 9).any fun k => decide (p.1 = 20 * (k : ℤ))) ||
    ((List.range 9).any fun k => decide (p.2 = 20 * (k : ℤ)))

/-- Strict interior of the 8×8 play area
(`MARGIN < x < BOARD_PIXELS - MARGIN`, same for `y`). -/
def inside_play_area (p : Point) : Bool :=
  decide (160 < p.1) && decide (p.1 < 3040) &&
    decide (160 < p.2) && decide (p.2 < 3040)

/-- Distance of a point to each board edge as `plan_margin_escape_path`
measures it (`0` left, `1` right, `2` top, `3` bottom). -/
def edge_dist (p : Point) : ℕ → ℤ
  | 0 => iabs (p.1 - 160)
  | 1 => iabs (3040 - p.1)
  | 2 => iabs (p.2 - 160)
  | _ => iabs (3040 - p.2)

/-- The half-square sidestep vector toward a given edge. -/
def edge_delta : ℕ → Point
  | 0 => (-180, 0)
  | 1 => (180, 0)
  | 2 => (0, -180)
  | _ => (0, 180)

/-- Strictly beyond the board boundary in at least one coordinate. -/
def outside_board (p : Point) : Bool :=
  decide (p.1 < 160) || decide (3040 < p.1) ||
    decide (p.2 < 160) || decide (3040 < p.2)

/-- Knight offset for pathfinder.py `(file, rank)` pairs. -/
def pf_knight_offset (a b : ℕ × ℕ) : Bool :=
  (decide (iabs ((b.1 : ℤ) - (a.1 : ℤ)) = 2) && decide (iabs ((b.2 : ℤ) - (a.2 : ℤ)) = 1)) ||
    (decide (iabs ((b.1 : ℤ) - (a.1 : ℤ)) = 1) && decide (iabs ((b.2 : ℤ) - (a.2 : ℤ)) = 2))

end PrinterSim

-- temporary compile-time checks (removed in the final file)
open PrinterSim in
example : a_star (NT.C, 0, 0) (NT.C, 0, 1) (fun _ _ => false) =
    some [(NT.C, 0, 0), (NT.H, 0, 0), (NT.C, 0, 1)] := by decide

namespace PrinterSim

/-! ### Basic lemmas -/

lemma lookup_cons_self {β : Type} (k : Node) (v : β) (l : List (Node × β)) :
    List.lookup k ((k, v) :: l) = some v := by
  simp [List.lookup]

lemma lookup_cons_ne {β : Type} {a k : Node} (v : β) (l : List (Node × β))
    (h : a ≠ k) : List.lookup a ((k, v) :: l) = List.lookup a l := by
  simp [List.lookup, beq_eq_false_iff_ne.mpr h]

lemma edges_not_self (n : Node) : n ∉ edges n := by
  obtain ⟨t, r, c⟩ := n
  cases t <;> simp [edges] <;> split_ifs <;> simp +decide

lemma edges_range {a b : Node} (ha : inRange a = true) (hb : b ∈ edges a) :
    inRange b = true := by
  obtain ⟨t, r, c⟩ := a
  cases t <;> simp [inRange] at ha <;>
    [skip; (obtain ⟨h1, h2⟩ := ha); (obtain ⟨h1, h2⟩ := ha)] <;>
    simp [edges] at hb
  · obtain ⟨h1, h2⟩ := ha
    rcases hb with hb | hb | hb | hb
    all_goals {
      rcases hb with ⟨hc, rfl⟩
      simp [inRange]
      omega
    }
  · rcases hb with rfl | rfl <;> simp [inRange] <;> omega
  · rcases hb with rfl | rfl <;> simp [inRange] <;> omega

lemma mem_nodesList_iff {n : Node} : n ∈ nodesList ↔ inRange n = true := by
  obtain ⟨t, r, c⟩ := n
  cases t <;> simp [nodesList, inRange] <;> omega

lemma foldl_min_mem (xs : List (ℕ × Node)) :
    ∀ acc, xs.foldl (fun acc x => if keyLt x acc then x else acc) acc ∈ acc :: xs := by
  induction xs with
  | nil => intro acc; simp
  | cons x xs ih =>
    intro acc
    simp only [List.foldl_cons]
    rcases List.mem_cons.mp (ih (if keyLt x acc then x else acc)) with h | h
    · rw [h]
      split
      · exact List.mem_cons_of_mem _ (List.mem_cons_self _ _)
      · exact List.mem_cons_self _ _
    · exact List.mem_cons_of_mem _ (List.mem_cons_of_mem _ h)

lemma findMin_mem {l : List (ℕ × Node)} {e : ℕ × Node} (h : findMin l = some e) :
    e ∈ l := by
  match l with
  | [] => simp [findMin] at h
  | x :: xs =>
    simp only [findMin, Option.some.injEq] at h
    subst h
    exact foldl_min_mem xs x

lemma findMin_none {l : List (ℕ × Node)} (h : findMin l = none) : l = [] := by
  match l with
  | [] => rfl
  | x :: xs => simp [findMin] at h

lemma chainAdjB_iff : ∀ p : List Node,
    chainAdjB p = true ↔ List.Chain' (fun a b' => b' ∈ edges a) p := by
  intro p
  match p with
  | [] => simp [chainAdjB]
  | [a] => simp [chainAdjB]
  | a :: b :: rest =>
    simp [chainAdjB, chainAdjB_iff (b :: rest), List.chain'_cons]

lemma isRouteB_iff {blocked start goal p} :
    isRouteB blocked start goal p = true ↔
      p.head? = some start ∧ p.getLast? = some goal ∧
      List.Chain' (fun a b' => b' ∈ edges a) p ∧
      ∀ x ∈ p.tail, okNode blocked goal x = true := by
  simp only [isRouteB, Bool.and_eq_true, decide_eq_true_eq, chainAdjB_iff,
    List.all_eq_true]
  tauto

lemma reconstruct_ok {blocked : ℕ → ℕ → Bool} {goal start : Node} {st : AState}
    (inv : Inv blocked goal start st) :
    ∀ fuel (n : Node) (b : ℕ), List.lookup n st.g = some b → b < fuel →
      (List.lookup n st.came).isSome →
      ∀ acc, ∃ p, reconstruct st.came fuel n acc = some (p ++ acc) ∧
        p ≠ [] ∧ p.head? = some start ∧ p.getLast? = some n ∧
        List.Chain' (fun a b' => b' ∈ edges a) p ∧
        ∀ x ∈ p.tail, okNode blocked goal x = true := by
  intro fuel
  induction fuel with
  | zero => intro n b _ hb; omega
  | succ fuel ih =>
    intro n b hg hb hc acc
    rcases hcame : List.lookup n st.came with _ | mo
    · rw [hcame] at hc; simp at hc
    · match mo with
      | none =>
        have hn : n = start := inv.cnone n hcame
        exact ⟨[n], by simp [reconstruct, hcame], by simp, by simp [hn], by simp,
          by simp, by simp⟩
      | some m =>
        obtain ⟨hadj, hok, a, b', hma, hnb', hab, hmc⟩ := inv.cparent n m hcame
        have hbb : b' = b := by rw [hg] at hnb'; exact (Option.some.inj hnb').symm
        have ha_lt : a < fuel := by omega
        obtain ⟨pm, hrec, hne, hhead, hlast, hchain, hok'⟩ := ih m a hma ha_lt hmc (n :: acc)
        obtain ⟨x, pm', rfl⟩ := List.exists_cons_of_ne_nil hne
        refine ⟨(x :: pm') ++ [n], ?_, by simp, ?_, ?_, ?_, ?_⟩
        · have : reconstruct st.came (fuel + 1) n acc = reconstruct st.came fuel m (n :: acc) := by
            simp [reconstruct, hcame]
          rw [this, hrec]
          simp
        · simpa using hhead
        · exact List.getLast?_concat _
        · refine List.Chain'.append hchain (by simp) ?_
          intro y hy z hz
          rw [hlast] at hy
          simp only [Option.mem_def, Option.some.injEq, List.head?_cons] at hy hz
          subst hy
          subst hz
          exact hadj
        · intro y hy
          simp only [List.cons_append, List.tail_cons] at hy
          rcases List.mem_append.mp hy with h | h
          · exact hok' y (by simpa using h)
          · simp at h
            rw [h]
            exact hok

lemma relaxNb_cases (goal : Node) (blocked : ℕ → ℕ → Bool) (cur : Node) (gcur : ℕ)
    (st : AState) (nb : Node) :
    (relaxNb goal blocked cur gcur st nb = st ∧
      (okNode blocked goal nb = true →
        ∃ gn, List.lookup nb st.g = some gn ∧ gn ≤ gcur + 1)) ∨
    (okNode blocked goal nb = true ∧
      (∀ gn, List.lookup nb st.g = some gn → gcur + 1 < gn) ∧
      relaxNb goal blocked cur gcur st nb =
        ⟨(gcur + 1 + heuristic nb goal, nb) :: st.openh,
          (nb, some cur) :: st.came, (nb, gcur + 1) :: st.g⟩) := by
  by_cases hskip : nb.1 = NT.C ∧ blocked nb.2.1 nb.2.2 = true ∧ nb ≠ goal
  · left
    constructor
    · simp [relaxNb, hskip]
    · intro hok
      exfalso
      simp [okNode, hskip] at hok
  · have hok : okNode blocked goal nb = true := by simp [okNode, hskip]
    rcases hlk : List.lookup nb st.g with _ | gn
    · right
      refine ⟨hok, by simp [hlk], ?_⟩
      simp [relaxNb, hskip, hlk]
    · by_cases himp : gcur + 1 < gn
      · right
        refine ⟨hok, ?_, ?_⟩
        · intro gn' h
          injection h with h
          omega
        · simp [relaxNb, hskip, hlk, himp]
      · left
        refine ⟨?_, fun _ => ⟨gn, rfl, by omega⟩⟩
        simp [relaxNb, hskip, hlk, himp]

lemma relaxNb_g_mono (goal : Node) (blocked : ℕ → ℕ → Bool) (cur : Node) (gcur : ℕ)
    (st : AState) (nb : Node) :
    ∀ x gn, List.lookup x st.g = some gn →
      ∃ gn', List.lookup x (relaxNb goal blocked cur gcur st nb).g = some gn' ∧ gn' ≤ gn := by
  intro x gn h
  rcases relaxNb_cases goal blocked cur gcur st nb with ⟨heq, _⟩ | ⟨_, himp, heq⟩
  · rw [heq]
    exact ⟨gn, h, le_rfl⟩
  · rw [heq]
    by_cases hx : x = nb
    · subst hx
      exact ⟨gcur + 1, lookup_cons_self _ _ _, le_of_lt (himp gn h)⟩
    · exact ⟨gn, by rw [lookup_cons_ne _ _ hx]; exact h, le_rfl⟩

lemma foldl_relax_g_mono (goal : Node) (blocked : ℕ → ℕ → Bool) (cur : Node) (gcur : ℕ) :
    ∀ (l : List Node) (st : AState) (x : Node) (gn : ℕ),
      List.lookup x st.g = some gn →
      ∃ gn', List.lookup x (l.foldl (relaxNb goal blocked cur gcur) st).g = some gn' ∧
        gn' ≤ gn := by
  intro l
  induction l with
  | nil => exact fun st x gn h => ⟨gn, h, le_rfl⟩
  | cons y l ih =>
    intro st x gn h
    obtain ⟨g1, h1, hle1⟩ := relaxNb_g_mono goal blocked cur gcur st y x gn h
    obtain ⟨g2, h2, hle2⟩ := ih (relaxNb goal blocked cur gcur st y) x g1 h1
    exact ⟨g2, h2, le_trans hle2 hle1⟩

lemma isSome_lookup_cons {β : Type} (k : Node) (v : β) (l : List (Node × β)) (x : Node)
    (h : (List.lookup x l).isSome) : (List.lookup x ((k, v) :: l)).isSome := by
  by_cases hx : x = k
  · subst hx
    rw [lookup_cons_self]
    rfl
  · rw [lookup_cons_ne _ _ hx]
    exact h

lemma nodesList_length : nodesList.length = 176 := by
  simp [nodesList, Function.comp_def]

lemma gcpath_le {start : Node} {g0 : List (Node × ℕ)} {n : Node} {b : ℕ}
    (h : GCPath start g0 n b)
    (hr : ∀ x, (List.lookup x g0).isSome → inRange x = true) : b ≤ 175 := by
  obtain ⟨P, hnd, _, _, _, hlen, hpre⟩ := h
  have hsub : P ⊆ nodesList := by
    intro x hx
    obtain ⟨i, hi⟩ := List.mem_iff_get.mp hx
    obtain ⟨bm, hbm, _⟩ := hpre i.1 i.2
    rw [mem_nodesList_iff]
    apply hr
    have : P.get ⟨i.1, i.2⟩ = x := hi
    rw [this] at hbm
    rw [hbm]
    rfl
  have hle := (List.subperm_of_subset hnd hsub).length_le
  rw [nodesList_length] at hle
  omega

lemma sigmaG_lt {g0 : List (Node × ℕ)} {nb : Node} {t : ℕ}
    (hnb : nb ∈ nodesList) (ht : t ≤ 176)
    (hold : ∀ gn, List.lookup nb g0 = some gn → t < gn) :
    sigmaG ((nb, t) :: g0) < sigmaG g0 := by
  unfold sigmaG
  apply List.sum_lt_sum
  · intro x _
    unfold gvalD
    by_cases h : x = nb
    · subst h
      rw [lookup_cons_self]
      rcases hl : List.lookup x g0 with _ | gn
      · simp
        omega
      · simpa using le_of_lt (hold gn hl)
    · rw [lookup_cons_ne _ _ h]
  · refine ⟨nb, hnb, ?_⟩
    unfold gvalD
    rw [lookup_cons_self]
    rcases hl : List.lookup nb g0 with _ | gn
    · simp
      omega
    · simpa using hold gn hl

lemma relaxNb_pres {blocked : ℕ → ℕ → Bool} {goal start cur : Node} {gcur base : ℕ}
    {st : AState} {nb : Node}
    (hnb : nb ∈ edges cur) (hcr : inRange cur = true)
    (h : RelaxInv blocked goal start cur gcur base st) :
    RelaxInv blocked goal start cur gcur base (relaxNb goal blocked cur gcur st nb) ∧
    (okNode blocked goal nb = true →
      ∃ gn, List.lookup nb (relaxNb goal blocked cur gcur st nb).g = some gn ∧
        gn ≤ gcur + 1) := by
  have hnbcur : nb ≠ cur := fun he => edges_not_self cur (he ▸ hnb)
  rcases relaxNb_cases goal blocked cur gcur st nb with ⟨heq, hfact⟩ | ⟨hok, himp, heq⟩
  · rw [heq]
    exact ⟨h, hfact⟩
  · rw [heq]
    have hnbstart : nb ≠ start := by
      intro he
      subst he
      exact absurd (himp 0 h.gstart) (by omega)
    have hg175 : gcur ≤ 175 := gcpath_le (h.gpath cur gcur h.curg) h.grange
    have hnbr : inRange nb = true := edges_range hcr hnb
    have hnotP : ∀ P : List Node,
        (∀ i : ℕ, ∀ hi : i < P.length, ∃ bm, List.lookup (P.get ⟨i, hi⟩) st.g = some bm ∧
          bm ≤ i) → P.length ≤ gcur + 1 → nb ∉ P := by
      intro P hpre hplen hmem
      obtain ⟨i, hi⟩ := List.mem_iff_get.mp hmem
      obtain ⟨bm, hbm, hbmle⟩ := hpre i.1 i.2
      have : P.get ⟨i.1, i.2⟩ = nb := hi
      rw [this] at hbm
      have := himp bm hbm
      have : i.1 < P.length := i.2
      omega
    refine ⟨⟨?_, ?_, ?_, ?_, ?_, ?_, ?_, ?_, ?_, ?_, ?_, ?_⟩, ?_⟩
    · -- gstart
      rw [lookup_cons_ne _ _ (Ne.symm hnbstart)]
      exact h.gstart
    · -- cstart
      rw [lookup_cons_ne _ _ (Ne.symm hnbstart)]
      exact h.cstart
    · -- cnone
      intro n hl
      by_cases hn : n = nb
      · subst hn
        rw [lookup_cons_self] at hl
        simp at hl
      · rw [lookup_cons_ne _ _ hn] at hl
        exact h.cnone n hl
    · -- cparent
      intro n m hl
      by_cases hn : n = nb
      · subst hn
        rw [lookup_cons_self] at hl
        injection hl with hl
        injection hl with hl
        subst hl
        refine ⟨hnb, hok, gcur, gcur + 1, ?_, lookup_cons_self _ _ _, by omega, ?_⟩
        · rw [lookup_cons_ne _ _ hnbcur.symm]
          exact h.curg
        · rw [lookup_cons_ne _ _ hnbcur.symm]
          exact h.curcame
      · rw [lookup_cons_ne _ _ hn] at hl
        obtain ⟨hadj, hokn, a, b, hma, hnb2, hab, hmc⟩ := h.cparent n m hl
        refine ⟨hadj, hokn, ?_⟩
        by_cases hm : m = nb
        · subst hm
          have := himp a hma
          exact ⟨gcur + 1, b, lookup_cons_self _ _ _, by
            rw [lookup_cons_ne _ _ hn]; exact hnb2, by omega,
            isSome_lookup_cons _ _ _ _ hmc⟩
        · exact ⟨a, b, by rw [lookup_cons_ne _ _ hm]; exact hma, by
            rw [lookup_cons_ne _ _ hn]; exact hnb2, hab,
            isSome_lookup_cons _ _ _ _ hmc⟩
    · -- openc
      intro e he
      rcases List.mem_cons.mp he with rfl | he
      · exact ⟨by rw [lookup_cons_self]; rfl, by rw [lookup_cons_self]; rfl⟩
      · obtain ⟨h1, h2⟩ := h.openc e he
        exact ⟨isSome_lookup_cons _ _ _ _ h1, isSome_lookup_cons _ _ _ _ h2⟩
    · -- gbound
      intro n b hl
      simp only [List.length_cons]
      by_cases hn : n = nb
      · subst hn
        rw [lookup_cons_self] at hl
        injection hl with hl
        have := h.gbound cur gcur h.curg
        omega
      · rw [lookup_cons_ne _ _ hn] at hl
        have := h.gbound n b hl
        omega
    · -- grange
      intro n hs
      by_cases hn : n = nb
      · subst hn
        exact hnbr
      · rw [lookup_cons_ne _ _ hn] at hs
        exact h.grange n hs
    · -- gpath
      intro n b hl
      by_cases hn : n = nb
      · subst hn
        rw [lookup_cons_self] at hl
        injection hl with hl
        subst hl
        obtain ⟨P, hnd, hhead, hlast, hchain, hplen, hpre⟩ := h.gpath cur gcur h.curg
        have hPnb : n ∉ P := hnotP P hpre (by omega)
        have hPne : P ≠ [] := by
          intro he
          rw [he] at hplen
          simp at hplen
        refine ⟨P ++ [n], ?_, ?_, List.getLast?_concat _, ?_, ?_, ?_⟩
        · simp [List.nodup_append, hnd]
          exact hPnb
        · rcases P with _ | ⟨x, P'⟩
          · exact absurd rfl hPne
          · simpa using hhead
        · refine List.Chain'.append hchain (by simp) ?_
          intro y hy z hz
          rw [hlast] at hy
          simp only [Option.mem_def, Option.some.injEq, List.head?_cons] at hy hz
          subst hy
          subst hz
          exact hnb
        · simp [hplen]
        · intro i hi
          have hi' : i < P.length + 1 := by simpa using hi
          by_cases hip : i < P.length
          · obtain ⟨bm, hbm, hble⟩ := hpre i hip
            have hget : (P ++ [n]).get ⟨i, hi⟩ = P.get ⟨i, hip⟩ := by
              simp [List.get_eq_getElem, List.getElem_append_left hip]
            rw [hget]
            have hne2 : P.get ⟨i, hip⟩ ≠ n := fun he => hPnb (he ▸ P.get_mem _ _)
            rw [lookup_cons_ne _ _ hne2]
            exact ⟨bm, hbm, hble⟩
          · have hieq : i = P.length := by omega
            have hget : (P ++ [n]).get ⟨i, hi⟩ = n := by
              simp [List.get_eq_getElem, hieq]
            rw [hget, lookup_cons_self]
            exact ⟨gcur + 1, rfl, by omega⟩
      · rw [lookup_cons_ne _ _ hn] at hl
        obtain ⟨P, hnd, hhead, hlast, hchain, hplen, hpre⟩ := h.gpath n b hl
        refine ⟨P, hnd, hhead, hlast, hchain, hplen, ?_⟩
        intro i hi
        obtain ⟨bm, hbm, hble⟩ := hpre i hi
        by_cases hx : P.get ⟨i, hi⟩ = nb
        · rw [hx] at hbm ⊢
          have := himp bm hbm
          rw [lookup_cons_self]
          exact ⟨gcur + 1, rfl, by omega⟩
        · rw [lookup_cons_ne _ _ hx]
          exact ⟨bm, hbm, hble⟩
    · -- procX
      intro n hs
      by_cases hn : n = nb
      · subst hn
        right
        left
        exact ⟨gcur + 1 + heuristic n goal, List.mem_cons_self _ _⟩
      · rw [lookup_cons_ne _ _ hn] at hs
        rcases h.procX n hs with hc | ⟨f, hf⟩ | ⟨hgoal, hrest⟩
        · exact Or.inl hc
        · exact Or.inr (Or.inl ⟨f, List.mem_cons_of_mem _ hf⟩)
        · refine Or.inr (Or.inr ⟨hgoal, ?_⟩)
          intro nb' hnb' hok'
          obtain ⟨bn, bnb, hbn, hbnb, hle⟩ := hrest nb' hnb' hok'
          by_cases hx : nb' = nb
          · subst hx
            have := himp bnb hbnb
            exact ⟨bn, gcur + 1, by rw [lookup_cons_ne _ _ hn]; exact hbn,
              lookup_cons_self _ _ _, by omega⟩
          · exact ⟨bn, bnb, by rw [lookup_cons_ne _ _ hn]; exact hbn, by
              rw [lookup_cons_ne _ _ hx]; exact hbnb, hle⟩
    · -- curg
      rw [lookup_cons_ne _ _ hnbcur.symm]
      exact h.curg
    · -- curcame
      rw [lookup_cons_ne _ _ hnbcur.symm]
      exact h.curcame
    · -- meas
      have hlt : sigmaG ((nb, gcur + 1) :: st.g) < sigmaG st.g :=
        sigmaG_lt (mem_nodesList_iff.mpr hnbr) (by omega) himp
      have := h.meas
      unfold loopMeasure at this ⊢
      simp only [List.length_cons]
      omega
    · -- the per-neighbour fact
      intro _
      exact ⟨gcur + 1, lookup_cons_self _ _ _, le_rfl⟩

lemma foldl_relax_pres {blocked : ℕ → ℕ → Bool} {goal start cur : Node} {gcur base : ℕ} :
    ∀ (l : List Node) (st : AState), (∀ x ∈ l, x ∈ edges cur) → inRange cur = true →
      RelaxInv blocked goal start cur gcur base st →
      RelaxInv blocked goal start cur gcur base
        (l.foldl (relaxNb goal blocked cur gcur) st) ∧
      ∀ nb ∈ l, okNode blocked goal nb = true →
        ∃ gn, List.lookup nb (l.foldl (relaxNb goal blocked cur gcur) st).g = some gn ∧
          gn ≤ gcur + 1 := by
  intro l
  induction l with
  | nil =>
    intro st _ _ h
    exact ⟨h, by simp⟩
  | cons y l ih =>
    intro st hmem hcr h
    obtain ⟨h1, hy⟩ := relaxNb_pres (hmem y (by simp)) hcr h
    obtain ⟨h2, hrest⟩ :=
      ih (relaxNb goal blocked cur gcur st y) (fun x hx => hmem x (by simp [hx])) hcr h1
    simp only [List.foldl_cons]
    refine ⟨h2, ?_⟩
    intro nb hnb hok
    rcases List.mem_cons.mp hnb with rfl | hnb'
    · obtain ⟨gn, hgn, hle⟩ := hy hok
      obtain ⟨gn', hgn', hle'⟩ := foldl_relax_g_mono goal blocked cur gcur l _ nb gn hgn
      exact ⟨gn', hgn', by omega⟩
    · exact hrest nb hnb' hok

lemma loop_iteration {blocked : ℕ → ℕ → Bool} {goal start : Node} {st : AState}
    (inv : Inv blocked goal start st) {e : ℕ × Node}
    (hfm : findMin st.openh = some e) (hne : e.2 ≠ goal) :
    Inv blocked goal start
      ((edges e.2).foldl (relaxNb goal blocked e.2 ((List.lookup e.2 st.g).getD 0))
        { st with openh := st.openh.erase e }) ∧
    loopMeasure
      ((edges e.2).foldl (relaxNb goal blocked e.2 ((List.lookup e.2 st.g).getD 0))
        { st with openh := st.openh.erase e }) < loopMeasure st := by
  have hmem := findMin_mem hfm
  obtain ⟨hcame, hg⟩ := inv.openc e hmem
  obtain ⟨gcur, hgcur⟩ := Option.isSome_iff_exists.mp hg
  have hgetD : (List.lookup e.2 st.g).getD 0 = gcur := by rw [hgcur]; rfl
  rw [hgetD]
  have hcr : inRange e.2 = true := inv.grange e.2 hg
  have hlen1 : 1 ≤ st.openh.length := List.length_pos.mpr (List.ne_nil_of_mem hmem)
  have hpopped : RelaxInv blocked goal start e.2 gcur (loopMeasure st - 1)
      { st with openh := st.openh.erase e } := by
    refine ⟨inv.gstart, inv.cstart, inv.cnone, inv.cparent, ?_, inv.gbound, inv.grange,
      inv.gpath, ?_, hgcur, hcame, ?_⟩
    · intro e' he'
      exact inv.openc e' (List.mem_of_mem_erase he')
    · intro n hs
      rcases inv.processed n hs with ⟨f, hf⟩ | hproc
      · by_cases hn : n = e.2
        · exact Or.inl hn
        · refine Or.inr (Or.inl ⟨f, ?_⟩)
          exact (List.mem_erase_of_ne fun hh => hn (congrArg Prod.snd hh)).mpr hf
      · exact Or.inr (Or.inr hproc)
    · unfold loopMeasure
      simp only
      rw [List.length_erase_of_mem hmem]
      omega
  obtain ⟨hfin, hdone⟩ := foldl_relax_pres (edges e.2) _ (fun x hx => hx) hcr hpopped
  constructor
  · refine ⟨hfin.gstart, hfin.cstart, hfin.cnone, hfin.cparent, hfin.openc, hfin.gbound,
      hfin.grange, hfin.gpath, ?_⟩
    intro n hs
    rcases hfin.procX n hs with hn | hopen | hsecond
    · subst hn
      refine Or.inr ⟨hne, ?_⟩
      intro nb hnb hok
      obtain ⟨gn, hgn, hle⟩ := hdone nb hnb hok
      exact ⟨gcur, gn, hfin.curg, hgn, hle⟩
    · exact Or.inl hopen
    · exact Or.inr hsecond
  · have := hfin.meas
    have hml : 1 ≤ loopMeasure st := by
      unfold loopMeasure
      omega
    omega

lemma astarLoop_succ (goal : Node) (blocked : ℕ → ℕ → Bool) (fuel : ℕ) (st : AState) :
    astarLoop goal blocked (fuel + 1) st =
      match findMin st.openh with
      | none => none
      | some e =>
        if e.2 = goal then reconstruct st.came (st.came.length + 1) e.2 []
        else
          astarLoop goal blocked fuel
            ((edges e.2).foldl (relaxNb goal blocked e.2 ((List.lookup e.2 st.g).getD 0))
              { st with openh := st.openh.erase e }) := rfl

lemma astarLoop_sound {blocked : ℕ → ℕ → Bool} {goal start : Node} :
    ∀ (fuel : ℕ) (st : AState), Inv blocked goal start st →
      ∀ p, astarLoop goal blocked fuel st = some p →
        isRouteB blocked start goal p = true := by
  intro fuel
  induction fuel with
  | zero =>
    intro st _ p hp
    simp [astarLoop] at hp
  | succ fuel ih =>
    intro st inv p hp
    rw [astarLoop_succ] at hp
    rcases hfm : findMin st.openh with _ | e
    · rw [hfm] at hp
      simp at hp
    · rw [hfm] at hp
      simp only at hp
      by_cases hcur : e.2 = goal
      · rw [if_pos hcur] at hp
        have hmem := findMin_mem hfm
        obtain ⟨hcame, hg⟩ := inv.openc e hmem
        obtain ⟨b, hb⟩ := Option.isSome_iff_exists.mp hg
        have hble : b < st.came.length + 1 := by
          have := inv.gbound e.2 b hb
          omega
        obtain ⟨q, hrec, hqne, hqh, hql, hqc, hqok⟩ :=
          reconstruct_ok inv (st.came.length + 1) e.2 b hb hble hcame []
        rw [List.append_nil] at hrec
        rw [hrec] at hp
        injection hp with hp
        subst hp
        rw [isRouteB_iff]
        exact ⟨hqh, hcur ▸ hql, hqc, hqok⟩
      · rw [if_neg hcur] at hp
        obtain ⟨inv', _⟩ := loop_iteration inv hfm hcur
        exact ih _ inv' p hp

lemma route_exhaust {blocked : ℕ → ℕ → Bool} {goal start : Node} {st : AState}
    (inv : Inv blocked goal start st) (hopen : st.openh = []) {q : List Node}
    (hq : isRouteB blocked start goal q = true) : False := by
  rw [isRouteB_iff] at hq
  obtain ⟨hh, hl, hc, hok⟩ := hq
  have hproc : ∀ n, (List.lookup n st.g).isSome → n ≠ goal ∧ ∀ nb ∈ edges n,
      okNode blocked goal nb = true → (List.lookup nb st.g).isSome := by
    intro n hs
    rcases inv.processed n hs with ⟨f, hf⟩ | ⟨hgoal, hrest⟩
    · rw [hopen] at hf
      simp at hf
    · refine ⟨hgoal, ?_⟩
      intro nb hnb hok'
      obtain ⟨bn, bnb, _, hbnb, _⟩ := hrest nb hnb hok'
      rw [hbnb]
      rfl
  have walk : ∀ (rest : List Node) (x : Node), (List.lookup x st.g).isSome →
      List.Chain' (fun a b' => b' ∈ edges a) (x :: rest) →
      (∀ y ∈ rest, okNode blocked goal y = true) →
      ∀ y ∈ x :: rest, (List.lookup y st.g).isSome := by
    intro rest
    induction rest with
    | nil =>
      intro x hx _ _ y hy
      simp at hy
      subst hy
      exact hx
    | cons z rest ih =>
      intro x hx hchain hokl y hy
      have hadj : z ∈ edges x := (List.chain'_cons.mp hchain).1
      have hz : (List.lookup z st.g).isSome :=
        (hproc x hx).2 z hadj (hokl z (by simp))
      rcases List.mem_cons.mp hy with rfl | hy'
      · exact hx
      · exact ih z hz (List.chain'_cons.mp hchain).2 (fun w hw => hokl w (by simp [hw]))
          y hy'
  have hqne : q ≠ [] := by
    intro he
    rw [he] at hh
    simp at hh
  obtain ⟨x, qrest, rfl⟩ := List.exists_cons_of_ne_nil hqne
  have hx : x = start := by simpa using hh
  subst hx
  have hgoal_mem : goal ∈ x :: qrest := List.mem_of_getLast?_eq_some hl
  have hgoal_some : (List.lookup goal st.g).isSome :=
    walk qrest x (by rw [inv.gstart]; rfl) hc (by simpa using hok) goal hgoal_mem
  exact (hproc goal hgoal_some).1 rfl

lemma astarLoop_complete {blocked : ℕ → ℕ → Bool} {goal start : Node} :
    ∀ (fuel : ℕ) (st : AState), Inv blocked goal start st →
      loopMeasure st < fuel →
      (∃ q, isRouteB blocked start goal q = true) →
      ∃ p, astarLoop goal blocked fuel st = some p := by
  intro fuel
  induction fuel with
  | zero =>
    intro st _ hm _
    omega
  | succ fuel ih =>
    intro st inv hm hq
    rw [astarLoop_succ]
    rcases hfm : findMin st.openh with _ | e
    · exfalso
      obtain ⟨q, hqr⟩ := hq
      exact route_exhaust inv (findMin_none hfm) hqr
    · simp only
      by_cases hcur : e.2 = goal
      · rw [if_pos hcur]
        have hmem := findMin_mem hfm
        obtain ⟨hcame, hg⟩ := inv.openc e hmem
        obtain ⟨b, hb⟩ := Option.isSome_iff_exists.mp hg
        have hble : b < st.came.length + 1 := by
          have := inv.gbound e.2 b hb
          omega
        obtain ⟨p, hrec, _⟩ := reconstruct_ok inv (st.came.length + 1) e.2 b hb hble hcame []
        exact ⟨p ++ [], hrec⟩
      · rw [if_neg hcur]
        obtain ⟨inv', hlt⟩ := loop_iteration inv hfm hcur
        exact ih _ inv' (by omega) hq

lemma Inv_init {blocked : ℕ → ℕ → Bool} {goal start : Node} (hs : inRange start = true) :
    Inv blocked goal start ⟨[(0, start)], [(start, none)], [(start, 0)]⟩ := by
  have hnil : ∀ (x : Node), List.lookup x ([] : List (Node × ℕ)) = none := by
    intro x
    rfl
  refine ⟨lookup_cons_self _ _ _, lookup_cons_self _ _ _, ?_, ?_, ?_, ?_, ?_, ?_, ?_⟩
  · intro n hl
    by_cases h : n = start
    · exact h
    · rw [lookup_cons_ne _ _ h] at hl
      simp [List.lookup] at hl
  · intro n m hl
    by_cases h : n = start
    · subst h
      rw [lookup_cons_self] at hl
      simp at hl
    · rw [lookup_cons_ne _ _ h] at hl
      simp [List.lookup] at hl
  · intro e he
    simp only [List.mem_singleton] at he
    subst he
    exact ⟨by rw [lookup_cons_self]; rfl, by rw [lookup_cons_self]; rfl⟩
  · intro n b hl
    by_cases h : n = start
    · subst h
      rw [lookup_cons_self] at hl
      injection hl with hl
      omega
    · rw [lookup_cons_ne _ _ h] at hl
      simp [List.lookup] at hl
  · intro n hs'
    by_cases h : n = start
    · subst h
      exact hs
    · rw [lookup_cons_ne _ _ h] at hs'
      simp [List.lookup] at hs'
  · intro n b hl
    by_cases h : n = start
    · subst h
      rw [lookup_cons_self] at hl
      injection hl with hl
      subst hl
      refine ⟨[n], by simp, rfl, rfl, by simp, rfl, ?_⟩
      intro i hi
      simp at hi
      subst hi
      exact ⟨0, by simp [lookup_cons_self], by omega⟩
    · rw [lookup_cons_ne _ _ h] at hl
      simp [List.lookup] at hl
  · intro n hs'
    by_cases h : n = start
    · subst h
      exact Or.inl ⟨0, by simp⟩
    · rw [lookup_cons_ne _ _ h] at hs'
      simp [List.lookup] at hs'

lemma loopMeasure_init {start : Node} :
    loopMeasure ⟨[(0, start)], [(start, none)], [(start, 0)]⟩ < FUEL := by
  have hb : ∀ x ∈ nodesList.map (gvalD [(start, 0)]), x ≤ 177 := by
    intro x hx
    obtain ⟨n, _, rfl⟩ := List.mem_map.mp hx
    unfold gvalD
    by_cases h : n = start
    · subst h
      rw [lookup_cons_self]
      simp
    · rw [lookup_cons_ne _ _ h]
      rfl
  have hsum := List.sum_le_card_nsmul _ 177 hb
  rw [List.length_map, nodesList_length] at hsum
  unfold loopMeasure sigmaG
  simp only [List.length_singleton]
  have : (176 : ℕ) • 177 = 31152 := by norm_num
  rw [this] at hsum
  unfold FUEL
  omega

/-- Soundness of `a_star`: any returned path is a valid corridor route
from `start` to `goal` avoiding blocked centers (goal exempt). -/
lemma a_star_sound {start goal : Node} {blocked : ℕ → ℕ → Bool} {p : List Node}
    (hs : inRange start = true) (h : a_star start goal blocked = some p) :
    isRouteB blocked start goal p = true :=
  astarLoop_sound FUEL _ (Inv_init hs) p h

/-- Completeness of `a_star`: whenever a valid corridor route exists, the
search returns one. -/
lemma a_star_complete {start goal : Node} {blocked : ℕ → ℕ → Bool}
    (hs : inRange start = true) (hq : ∃ q, isRouteB blocked start goal q = true) :
    ∃ p, a_star start goal blocked = some p :=
  astarLoop_complete FUEL _ (Inv_init hs) loopMeasure_init hq

lemma sq_node_inRange {src : ℕ} (h : src < 64) :
    inRange ((NT.C, sq_rank src, sq_file src) : Node) = true := by
  simp only [inRange, Bool.and_eq_true, decide_eq_true_eq, sq_rank, sq_file]
  omega

lemma nodeXYS_center (r c : ℕ) :
    nodeXYS (NT.C, r, c) = rc_to_center_xy r c := by
  simp only [nodeXYS, nodeXY, rc_to_center_xy, Prod.mk.injEq]
  exact ⟨by ring, by ring⟩

/-- Everything `plan_corridor_path` guarantees on success: the points are
the images of a valid corridor route between the two square centers. -/
lemma plan_corridor_path_spec {b : Board} {src dst : ℕ} {pts : List Point}
    (hsrc : src < 64) (h : plan_corridor_path b src dst = some pts) :
    ∃ ns, pts = ns.map nodeXYS ∧
      isRouteB (plan_corridor_blocked b src) (NT.C, sq_rank src, sq_file src)
        (NT.C, sq_rank dst, sq_file dst) ns = true := by
  unfold plan_corridor_path at h
  rcases ha : a_star (NT.C, sq_rank src, sq_file src) (NT.C, sq_rank dst, sq_file dst)
      (plan_corridor_blocked b src) with _ | ns
  · rw [ha] at h
    simp at h
  · rw [ha] at h
    simp only at h
    by_cases hne : ns = []
    · rw [if_pos hne] at h
      simp at h
    · rw [if_neg hne] at h
      injection h with h
      exact ⟨ns, h.symm, a_star_sound (sq_node_inRange hsrc) ha⟩

/-- Success facts used by the sequencer claims: a successful corridor plan
is nonempty, starts at the source center and ends at the target center. -/
lemma plan_corridor_path_ends {b : Board} {src dst : ℕ} {pts : List Point}
    (hsrc : src < 64) (h : plan_corridor_path b src dst = some pts) :
    pts ≠ [] ∧
    pts.headD (0, 0) = rc_to_center_xy (sq_rank src) (sq_file src) ∧
    pts.getLastD (0, 0) = rc_to_center_xy (sq_rank dst) (sq_file dst) := by
  obtain ⟨ns, rfl, hr⟩ := plan_corridor_path_spec hsrc h
  rw [isRouteB_iff] at hr
  obtain ⟨hh, hl, _, _⟩ := hr
  have hne : ns ≠ [] := by
    intro he
    rw [he] at hh
    simp at hh
  refine ⟨by simpa using hne, ?_, ?_⟩
  · rw [List.headD_eq_head?_getD, List.head?_map, hh]
    simp [nodeXYS_center]
  · rw [List.getLastD_eq_getLast?, List.getLast?_map, hl]
    simp [nodeXYS_center]

/-- C1 counterexample: with the single square `(5, 4)` blocked, `a_star`
from the center of `(7, 5)` to the center of `(4, 4)` returns a route of
12 edges although a valid route of 8 edges exists, so the returned route
is not of minimum length; moreover the Manhattan pixel heuristic between
the two endpoints is 288, drastically overestimating the true cost 8
under uniform edge cost 1 (it is not admissible). -/
theorem C1_counterexample :
    a_star (NT.C, 7, 5) (NT.C, 4, 4) (fun r c => decide (r = 5) && decide (c = 4)) =
      some [(NT.C, 7, 5), (NT.H, 7, 4), (NT.C, 7, 4), (NT.V, 6, 4), (NT.C, 6, 4),
        (NT.H, 6, 3), (NT.C, 6, 3), (NT.V, 5, 3), (NT.C, 5, 3), (NT.V, 4, 3),
        (NT.C, 4, 3), (NT.H, 4, 3), (NT.C, 4, 4)] ∧
    ([(NT.C, 7, 5), (NT.H, 7, 4), (NT.C, 7, 4), (NT.V, 6, 4), (NT.C, 6, 4),
        (NT.H, 6, 3), (NT.C, 6, 3), (NT.V, 5, 3), (NT.C, 5, 3), (NT.V, 4, 3),
        (NT.C, 4, 3), (NT.H, 4, 3), (NT.C, 4, 4)] : List Node).length = 12 + 1 ∧
    isRouteB (fun r c => decide (r = 5) && decide (c = 4)) (NT.C, 7, 5) (NT.C, 4, 4)
      [(NT.C, 7, 5), (NT.V, 6, 5), (NT.C, 6, 5), (NT.V, 5, 5), (NT.C, 5, 5),
        (NT.V, 4, 5), (NT.C, 4, 5), (NT.H, 4, 4), (NT.C, 4, 4)] = true ∧
    ([(NT.C, 7, 5), (NT.V, 6, 5), (NT.C, 6, 5), (NT.V, 5, 5), (NT.C, 5, 5),
        (NT.V, 4, 5), (NT.C, 4, 5), (NT.H, 4, 4), (NT.C, 4, 4)] : List Node).length =
      8 + 1 ∧
    heuristic (NT.C, 7, 5) (NT.C, 4, 4) = 288 := by
  refine ⟨by decide, by decide, by decide, by decide, by decide⟩

/-- C1 amended: `a_star` with the Manhattan pixel heuristic is sound and
complete — any returned path is a valid corridor route from start to goal
under the blocked predicate (goal exempt), and whenever any valid route
exists a route is returned — but the returned route need not have minimum
length under uniform edge cost 1, because the heuristic overestimates
(see the counterexample). -/
theorem C1_amended (start goal : Node) (blocked : ℕ → ℕ → Bool)
    (hs : inRange start = true) :
    (∀ p, a_star start goal blocked = some p → isRouteB blocked start goal p = true) ∧
    ((∃ q, isRouteB blocked start goal q = true) →
      ∃ p, a_star start goal blocked = some p) :=
  ⟨fun _ hp => a_star_sound hs hp, fun hq => a_star_complete hs hq⟩

/-- C1 amended witness: the trivial one-corridor instance. -/
theorem C1_witness :
    inRange ((NT.C, 0, 0) : Node) = true ∧
    (∃ p, a_star (NT.C, 0, 0) (NT.C, 0, 1) (fun _ _ => false) = some p) :=
  ⟨by decide, (C1_amended (NT.C, 0, 0) (NT.C, 0, 1) (fun _ _ => false) (by decide)).2
    ⟨[(NT.C, 0, 0), (NT.H, 0, 0), (NT.C, 0, 1)], by decide⟩⟩

/-- C2: when no corridor route exists under the current occupancy (source
exempt, destination exempt as the A* goal), `plan_corridor_path` fails
with `none` (`PathNotFound`) rather than returning a path; and whenever
it returns a path, that path is the image of a valid corridor route, so
no node of it is the center of an occupied square other than the source
and destination centers. -/
theorem C2_plan_corridor (b : Board) (src dst : ℕ) (hsrc : src < 64) :
    ((¬ ∃ ns, isRouteB (plan_corridor_blocked b src) (NT.C, sq_rank src, sq_file src)
        (NT.C, sq_rank dst, sq_file dst) ns = true) →
      plan_corridor_path b src dst = none) ∧
    (∀ pts, plan_corridor_path b src dst = some pts →
      ∃ ns, pts = ns.map nodeXYS ∧
        isRouteB (plan_corridor_blocked b src) (NT.C, sq_rank src, sq_file src)
          (NT.C, sq_rank dst, sq_file dst) ns = true ∧
        ∀ r c, ((NT.C, r, c) : Node) ∈ ns → occB b r c = true →
          (r = sq_rank src ∧ c = sq_file src) ∨ (r = sq_rank dst ∧ c = sq_file dst)) := by
  constructor
  · intro hno
    rcases hp : plan_corridor_path b src dst with _ | pts
    · rfl
    · exfalso
      obtain ⟨ns, _, hr⟩ := plan_corridor_path_spec hsrc hp
      exact hno ⟨ns, hr⟩
  · intro pts hp
    obtain ⟨ns, hmap, hr⟩ := plan_corridor_path_spec hsrc hp
    refine ⟨ns, hmap, hr, ?_⟩
    intro r c hmem hocc
    rw [isRouteB_iff] at hr
    obtain ⟨hh, _, _, hok⟩ := hr
    have hcons : ∃ t, ns = (NT.C, sq_rank src, sq_file src) :: t := by
      rcases ns with _ | ⟨x, t⟩
      · simp at hh
      · simp at hh
        exact ⟨t, by rw [hh]⟩
    obtain ⟨t, rfl⟩ := hcons
    rcases List.mem_cons.mp hmem with he | ht
    · left
      injection he with _ h2
      injection h2 with h2 h3
      exact ⟨h2, h3⟩
    · have hok2 := hok _ ht
      by_cases hgoal : ((NT.C, r, c) : Node) = (NT.C, sq_rank dst, sq_file dst)
      · right
        injection hgoal with _ h2
        injection h2 with h2 h3
        exact ⟨h2, h3⟩
      · by_cases hsq : r = sq_rank src ∧ c = sq_file src
        · exact Or.inl hsq
        · exfalso
          have hbl : plan_corridor_blocked b src r c = true := by
            simp [plan_corridor_blocked, hocc]
            tauto
          simp [okNode, hbl, hgoal] at hok2

/-- C2 witness: a fully enclosed source (a1 walled in by b1, a2) yields
`PathNotFound`, and the theorem applies to that board. -/
theorem C2_witness :
    (0 : ℕ) < 64 ∧
    plan_corridor_path ⟨[(0, ⟨6, true⟩), (1, ⟨1, true⟩), (8, ⟨1, true⟩)], none⟩ 0 2 =
      none ∧
    ((¬ ∃ ns, isRouteB
        (plan_corridor_blocked ⟨[(0, ⟨6, true⟩), (1, ⟨1, true⟩), (8, ⟨1, true⟩)], none⟩ 0)
        (NT.C, sq_rank 0, sq_file 0) (NT.C, sq_rank 2, sq_file 2) ns = true) →
      plan_corridor_path ⟨[(0, ⟨6, true⟩), (1, ⟨1, true⟩), (8, ⟨1, true⟩)], none⟩ 0 2 =
        none) :=
  ⟨by decide, by decide,
    (C2_plan_corridor ⟨[(0, ⟨6, true⟩), (1, ⟨1, true⟩), (8, ⟨1, true⟩)], none⟩ 0 2
      (by decide)).1⟩

lemma plan_margin_escape_path_head (cap grave : Point) :
    plan_margin_escape_path cap grave ≠ [] ∧
    (plan_margin_escape_path cap grave).headD (0, 0) = cap := by
  unfold plan_margin_escape_path
  dsimp only
  split <;> simp

lemma plan_knight_route_last {b : Board} {m : Move} {pts : List Point}
    (hsrc : m.fromSq < 64) (h : plan_knight_route_on_lines b m = some pts) :
    pts.getLastD (0, 0) = rc_to_center_xy (sq_rank m.toSq) (sq_file m.toSq) := by
  unfold plan_knight_route_on_lines at h
  dsimp only at h
  split at h
  · injection h with h
    rw [← h]
    rfl
  · split at h
    · injection h with h
      rw [← h]
      rfl
    · exact (plan_corridor_path_ends hsrc h).2.2

lemma plan_move_leg_last {b tb : Board} {m : Move} {pts : List Point}
    (hsrc : m.fromSq < 64) (h : plan_move_leg b tb m = some pts) :
    pts.getLastD (0, 0) = rc_to_center_xy (sq_rank m.toSq) (sq_file m.toSq) := by
  unfold plan_move_leg at h
  rcases hpc : piece_at b m.fromSq with _ | p
  · rw [hpc] at h
    simp only at h
    exact (plan_corridor_path_ends hsrc h).2.2
  · rw [hpc] at h
    simp only at h
    by_cases hpt : p.ptype = 2
    · rw [if_pos hpt] at h
      exact plan_knight_route_last hsrc h
    · rw [if_neg hpt] at h
      exact (plan_corridor_path_ends hsrc h).2.2

/-- Everything a successful `plan_capture_sequence` returns, destructured:
the three planned legs exist and the segment list is exactly the seven
segments built from them. -/
lemma plan_capture_sequence_eq {b : Board} {m : Move} {nW nB : ℕ}
    {segs : List Segment} {col : Bool} {g : Point}
    (h : plan_capture_sequence b m nW nB = some (segs, col, g)) :
    ∃ p1 p2 p3,
      plan_corridor_path b m.fromSq (captured_square b m) = some p1 ∧
      corridor_between_points (remove_piece_at b (captured_square b m))
        (capture_grave_xy b m nW nB)
        (rc_to_center_xy (sq_rank m.fromSq) (sq_file m.fromSq)) = some p2 ∧
      plan_move_leg b (remove_piece_at b (captured_square b m)) m = some p3 ∧
      segs = [⟨p1, false⟩, ⟨[p1.getLastD (0, 0)], true⟩,
        ⟨plan_margin_escape_path (capture_cap_xy b m) (capture_grave_xy b m nW nB), true⟩,
        ⟨[(plan_margin_escape_path (capture_cap_xy b m)
            (capture_grave_xy b m nW nB)).getLastD (0, 0)], false⟩,
        ⟨p2, false⟩, ⟨p3, true⟩, ⟨[p3.getLastD (0, 0)], false⟩] ∧
      col = captured_color_of b (captured_square b m) ∧
      g = capture_grave_xy b m nW nB := by
  unfold plan_capture_sequence at h
  dsimp only at h
  rcases h1 : plan_corridor_path b m.fromSq (captured_square b m) with _ | p1
  · rw [h1] at h
    simp at h
  · rw [h1] at h
    simp only at h
    by_cases hnil : p1 = []
    · rw [if_pos hnil] at h
      simp at h
    · rw [if_neg hnil] at h
      rcases h2 : corridor_between_points (remove_piece_at b (captured_square b m))
          (next_grave_xy (captured_color_of b (captured_square b m)) nW nB)
          (rc_to_center_xy (sq_rank m.fromSq) (sq_file m.fromSq)) with _ | p2
      · rw [h2] at h
        simp at h
      · rw [h2] at h
        simp only at h
        rcases h3 : plan_move_leg b (remove_piece_at b (captured_square b m)) m
            with _ | p3
        · rw [h3] at h
          simp at h
        · rw [h3] at h
          simp only at h
          rw [if_neg (plan_margin_escape_path_head _ _).1] at h
          injection h with h
          rw [Prod.mk.injEq, Prod.mk.injEq] at h
          obtain ⟨hsegs, hcol, hg⟩ := h
          exact ⟨p1, p2, p3, rfl, h2, rfl, hsegs.symm, hcol.symm, hg.symm⟩

/-- C3: segment shapes of the three sequencers — a simple move plans
exactly 2 segments, castling exactly 4, and a capture exactly 7 with
engagement flags (off, on, on, off, off, on, off); in the capture plan
segment 2's single point equals segment 1's last point, which is the
captured square's center (the destination center when the capture is not
en passant), and segment 7's single point is the destination center. -/
theorem C3_move_plan_shapes (b : Board) (m : Move) (nW nB : ℕ)
    (hsrc : m.fromSq < 64) :
    (∀ segs, plan_normal_move b m = some segs → segs.length = 2) ∧
    (∀ segs, plan_castling b m = some segs → segs.length = 4) ∧
    (∀ segs col g, plan_capture_sequence b m nW nB = some (segs, col, g) →
      segs.length = 7 ∧
      segs.map Segment.magnetOn = [false, true, true, false, false, true, false] ∧
      (segs.getD 1 ⟨[], false⟩).waypoints =
        [(segs.getD 0 ⟨[], false⟩).waypoints.getLastD (0, 0)] ∧
      (segs.getD 0 ⟨[], false⟩).waypoints.getLastD (0, 0) =
        rc_to_center_xy (sq_rank (captured_square b m)) (sq_file (captured_square b m)) ∧
      (is_en_passant b m = false →
        (segs.getD 0 ⟨[], false⟩).waypoints.getLastD (0, 0) =
          rc_to_center_xy (sq_rank m.toSq) (sq_file m.toSq)) ∧
      (segs.getD 6 ⟨[], false⟩).waypoints =
        [rc_to_center_xy (sq_rank m.toSq) (sq_file m.toSq)]) := by
  refine ⟨?_, ?_, ?_⟩
  · intro segs h
    unfold plan_normal_move at h
    rcases hp : plan_move_leg b b m with _ | path
    · rw [hp] at h
      simp at h
    · rw [hp] at h
      simp only at h
      injection h with h
      rw [← h]
      rfl
  · intro segs h
    unfold plan_castling at h
    dsimp only at h
    split at h
    · simp at h
    · split at h
      · simp at h
      · injection h with h
        rw [← h]
        rfl
  · intro segs col g h
    obtain ⟨p1, p2, p3, h1, h2, h3, rfl, -, -⟩ := plan_capture_sequence_eq h
    have hlast := (plan_corridor_path_ends hsrc h1).2.2
    refine ⟨rfl, rfl, rfl, hlast, ?_, ?_⟩
    · intro hep
      have hcs : captured_square b m = m.toSq := by
        simp [captured_square, hep]
      rw [hcs] at hlast
      exact hlast
    · exact congrArg (fun q => [q]) (plan_move_leg_last hsrc h3)

set_option maxRecDepth 10000 in
/-- C3 witness: a lone-pawn push plans 2 segments, a bare kingside
castle plans 4, and the capture Qh7xh8 plans 7 segments with the claimed
flags and a final segment at the destination center. -/
theorem C3_witness :
    ((12 : ℕ) < 64 ∧ (4 : ℕ) < 64 ∧ (55 : ℕ) < 64) ∧
    (∃ segs, plan_normal_move ⟨[(12, ⟨1, true⟩)], none⟩ ⟨12, 28⟩ = some segs ∧
      segs.length = 2) ∧
    (∃ segs, plan_castling ⟨[(4, ⟨6, true⟩), (7, ⟨4, true⟩)], none⟩ ⟨4, 6⟩ = some segs ∧
      segs.length = 4) ∧
    (∃ segs col g,
      plan_capture_sequence ⟨[(55, ⟨5, true⟩), (63, ⟨1, false⟩)], none⟩ ⟨55, 63⟩ 0 0 =
        some (segs, col, g) ∧
      segs.length = 7 ∧
      segs.map Segment.magnetOn = [false, true, true, false, false, true, false] ∧
      (segs.getD 6 ⟨[], false⟩).waypoints =
        [rc_to_center_xy (sq_rank 63) (sq_file 63)]) := by
  refine ⟨⟨by decide, by decide, by decide⟩, ?_, ?_, ?_⟩
  · have hs : (plan_normal_move ⟨[(12, ⟨1, true⟩)], none⟩ ⟨12, 28⟩).isSome = true := by
      decide
    rcases hval : plan_normal_move ⟨[(12, ⟨1, true⟩)], none⟩ ⟨12, 28⟩ with _ | segs
    · rw [hval] at hs
      simp at hs
    · exact ⟨segs, rfl,
        (C3_move_plan_shapes ⟨[(12, ⟨1, true⟩)], none⟩ ⟨12, 28⟩ 0 0 (by decide)).1
          segs hval⟩
  · have hs : (plan_castling ⟨[(4, ⟨6, true⟩), (7, ⟨4, true⟩)], none⟩ ⟨4, 6⟩).isSome =
        true := by decide
    rcases hval : plan_castling ⟨[(4, ⟨6, true⟩), (7, ⟨4, true⟩)], none⟩ ⟨4, 6⟩
        with _ | segs
    · rw [hval] at hs
      simp at hs
    · exact ⟨segs, rfl,
        (C3_move_plan_shapes ⟨[(4, ⟨6, true⟩), (7, ⟨4, true⟩)], none⟩ ⟨4, 6⟩ 0 0
          (by decide)).2.1 segs hval⟩
  · have hs : (plan_capture_sequence ⟨[(55, ⟨5, true⟩), (63, ⟨1, false⟩)], none⟩
        ⟨55, 63⟩ 0 0).isSome = true := by decide
    rcases hval : plan_capture_sequence ⟨[(55, ⟨5, true⟩), (63, ⟨1, false⟩)], none⟩
        ⟨55, 63⟩ 0 0 with _ | ⟨segs, col, g⟩
    · rw [hval] at hs
      simp at hs
    · have h7 := (C3_move_plan_shapes ⟨[(55, ⟨5, true⟩), (63, ⟨1, false⟩)], none⟩
        ⟨55, 63⟩ 0 0 (by decide)).2.2 segs col g hval
      exact ⟨segs, col, g, rfl, h7.1, h7.2.1, h7.2.2.2.2.2⟩

/-- C4: for an en-passant capture, the captured square is computed from
the move metadata as source rank and destination file, it differs from
the destination square whenever the ranks differ, and the removal
(margin) leg starts at that captured square's center. -/
theorem C4_en_passant_capture (b : Board) (m : Move) (nW nB : ℕ)
    (hep : is_en_passant b m = true) :
    captured_square b m = sq_rank m.fromSq * 8 + sq_file m.toSq ∧
    (sq_rank m.fromSq ≠ sq_rank m.toSq → captured_square b m ≠ m.toSq) ∧
    (∀ segs col g, plan_capture_sequence b m nW nB = some (segs, col, g) →
      (segs.getD 2 ⟨[], false⟩).waypoints.headD (0, 0) =
        rc_to_center_xy (sq_rank (captured_square b m))
          (sq_file (captured_square b m))) := by
  have hcs : captured_square b m = sq_rank m.fromSq * 8 + sq_file m.toSq := by
    simp [captured_square, hep]
  refine ⟨hcs, ?_, ?_⟩
  · intro hr heq
    apply hr
    rw [hcs] at heq
    simp only [sq_rank, sq_file] at *
    omega
  · intro segs col g h
    obtain ⟨p1, p2, p3, -, -, -, rfl, -, -⟩ := plan_capture_sequence_eq h
    exact (plan_margin_escape_path_head _ _).2

set_option maxRecDepth 10000 in
/-- C4 witness: the en-passant capture e5xd6 on a board whose en-passant
target is d6 — the captured square is d5 (rank of e5, file of d6), not
the destination d6, and the margin leg starts at d5's center. -/
theorem C4_witness :
    is_en_passant ⟨[(36, ⟨1, true⟩), (35, ⟨1, false⟩)], some 43⟩ ⟨36, 43⟩ = true ∧
    captured_square ⟨[(36, ⟨1, true⟩), (35, ⟨1, false⟩)], some 43⟩ ⟨36, 43⟩ =
      sq_rank 36 * 8 + sq_file 43 ∧
    captured_square ⟨[(36, ⟨1, true⟩), (35, ⟨1, false⟩)], some 43⟩ ⟨36, 43⟩ ≠ (43 : ℕ) ∧
    (∃ segs col g,
      plan_capture_sequence ⟨[(36, ⟨1, true⟩), (35, ⟨1, false⟩)], some 43⟩ ⟨36, 43⟩ 0 0 =
        some (segs, col, g) ∧
      (segs.getD 2 ⟨[], false⟩).waypoints.headD (0, 0) =
        rc_to_center_xy (sq_rank 35) (sq_file 35)) := by
  have hep : is_en_passant ⟨[(36, ⟨1, true⟩), (35, ⟨1, false⟩)], some 43⟩ ⟨36, 43⟩ =
      true := by decide
  have hth := C4_en_passant_capture ⟨[(36, ⟨1, true⟩), (35, ⟨1, false⟩)], some 43⟩
    ⟨36, 43⟩ 0 0 hep
  refine ⟨hep, hth.1, hth.2.1 (by decide), ?_⟩
  have hs : (plan_capture_sequence ⟨[(36, ⟨1, true⟩), (35, ⟨1, false⟩)], some 43⟩
      ⟨36, 43⟩ 0 0).isSome = true := by decide
  rcases hval : plan_capture_sequence ⟨[(36, ⟨1, true⟩), (35, ⟨1, false⟩)], some 43⟩
      ⟨36, 43⟩ 0 0 with _ | ⟨segs, col, g⟩
  · rw [hval] at hs
    simp at hs
  · have h3 := hth.2.2 segs col g hval
    have hcs : captured_square ⟨[(36, ⟨1, true⟩), (35, ⟨1, false⟩)], some 43⟩ ⟨36, 43⟩ =
        (35 : ℕ) := by decide
    rw [hcs] at h3
    exact ⟨segs, col, g, rfl, h3⟩

end PrinterSim

namespace PrinterSim

/-! ## Helper lemmas for the knight router -/

lemma knight_offset_cases {m : Move} (hm : is_knight_offset m = true) :
    (iabs ((sq_rank m.toSq : ℤ) - (sq_rank m.fromSq : ℤ)) = 2 ∧
      iabs ((sq_file m.toSq : ℤ) - (sq_file m.fromSq : ℤ)) = 1) ∨
    (iabs ((sq_rank m.toSq : ℤ) - (sq_rank m.fromSq : ℤ)) = 1 ∧
      iabs ((sq_file m.toSq : ℤ) - (sq_file m.fromSq : ℤ)) = 2) := by
  simpa only [is_knight_offset, Bool.or_eq_true, Bool.and_eq_true,
    decide_eq_true_eq] using hm

lemma plan_knight_route_indep (b b' : Board) (m : Move)
    (hm : is_knight_offset m = true) :
    plan_knight_route_on_lines b m = plan_knight_route_on_lines b' m := by
  rcases knight_offset_cases hm with ⟨h1, h2⟩ | ⟨h1, h2⟩ <;>
    simp [plan_knight_route_on_lines, h1, h2]

lemma knight_shape_aux :
    ∀ s d : Fin 64, is_knight_offset ⟨s.1, d.1⟩ = true →
      ((plan_knight_route_on_lines ⟨[], none⟩ ⟨s.1, d.1⟩).getD []).length = 4 ∧
      ((plan_knight_route_on_lines ⟨[], none⟩ ⟨s.1, d.1⟩).getD []).headD (0, 0) =
        rc_to_center_xy (sq_rank s.1) (sq_file s.1) ∧
      ((plan_knight_route_on_lines ⟨[], none⟩ ⟨s.1, d.1⟩).getD []).getLastD (0, 0) =
        rc_to_center_xy (sq_rank d.1) (sq_file d.1) ∧
      on_corridor_line (((plan_knight_route_on_lines ⟨[], none⟩ ⟨s.1, d.1⟩).getD []).getD 1 (0, 0)) =
        true ∧
      on_corridor_line (((plan_knight_route_on_lines ⟨[], none⟩ ⟨s.1, d.1⟩).getD []).getD 2 (0, 0)) =
        true := by
  decide

lemma pf_knight_shape_aux :
    ∀ ff fr tf tr : Fin 8, pf_knight_offset (ff.1, fr.1) (tf.1, tr.1) = true →
      (PathFinderPy.path_knight_units (ff.1, fr.1) (tf.1, tr.1)).length = 4 ∧
      (PathFinderPy.path_knight_units (ff.1, fr.1) (tf.1, tr.1)).headD (0, 0) =
        PathFinderPy.center_of (ff.1, fr.1) ∧
      (PathFinderPy.path_knight_units (ff.1, fr.1) (tf.1, tr.1)).getLastD (0, 0) =
        PathFinderPy.center_of (tf.1, tr.1) ∧
      on_unit_corridor_line
        ((PathFinderPy.path_knight_units (ff.1, fr.1) (tf.1, tr.1)).getD 1 (0, 0)) = true ∧
      on_unit_corridor_line
        ((PathFinderPy.path_knight_units (ff.1, fr.1) (tf.1, tr.1)).getD 2 (0, 0)) = true := by
  decide

/-- C5: for each of the 8 valid knight offsets from any source square, the
knight router returns exactly 4 points whose first and last equal the
source and destination square centers and whose two intermediate points
lie exactly on corridor lines, independently of board occupancy; the same
holds for the unit-space router `path_knight_units` of pathfinder.py. -/
theorem C5_knight_router (s d : Fin 64) (hm : is_knight_offset ⟨s.1, d.1⟩ = true)
    (b b' : Board) (ff fr tf tr : Fin 8)
    (hpf : pf_knight_offset (ff.1, fr.1) (tf.1, tr.1) = true) :
    (((plan_knight_route_on_lines ⟨[], none⟩ ⟨s.1, d.1⟩).getD []).length = 4 ∧
      ((plan_knight_route_on_lines ⟨[], none⟩ ⟨s.1, d.1⟩).getD []).headD (0, 0) =
        rc_to_center_xy (sq_rank s.1) (sq_file s.1) ∧
      ((plan_knight_route_on_lines ⟨[], none⟩ ⟨s.1, d.1⟩).getD []).getLastD (0, 0) =
        rc_to_center_xy (sq_rank d.1) (sq_file d.1) ∧
      on_corridor_line
        (((plan_knight_route_on_lines ⟨[], none⟩ ⟨s.1, d.1⟩).getD []).getD 1 (0, 0)) = true ∧
      on_corridor_line
        (((plan_knight_route_on_lines ⟨[], none⟩ ⟨s.1, d.1⟩).getD []).getD 2 (0, 0)) = true) ∧
    plan_knight_route_on_lines b ⟨s.1, d.1⟩ = plan_knight_route_on_lines b' ⟨s.1, d.1⟩ ∧
    ((PathFinderPy.path_knight_units (ff.1, fr.1) (tf.1, tr.1)).length = 4 ∧
      (PathFinderPy.path_knight_units (ff.1, fr.1) (tf.1, tr.1)).headD (0, 0) =
        PathFinderPy.center_of (ff.1, fr.1) ∧
      (PathFinderPy.path_knight_units (ff.1, fr.1) (tf.1, tr.1)).getLastD (0, 0) =
        PathFinderPy.center_of (tf.1, tr.1) ∧
      on_unit_corridor_line
        ((PathFinderPy.path_knight_units (ff.1, fr.1) (tf.1, tr.1)).getD 1 (0, 0)) = true ∧
      on_unit_corridor_line
        ((PathFinderPy.path_knight_units (ff.1, fr.1) (tf.1, tr.1)).getD 2 (0, 0)) = true) :=
  ⟨knight_shape_aux s d hm, plan_knight_route_indep b b' _ hm,
    pf_knight_shape_aux ff fr tf tr hpf⟩

/-- C5 witness: the knight move b1→c3 (squares 1 → 18, offset (+2, +1))
instantiates every hypothesis of `C5_knight_router`. -/
theorem C5_witness :
    is_knight_offset ⟨1, 18⟩ = true ∧
    ((plan_knight_route_on_lines ⟨[], none⟩ ⟨1, 18⟩).getD []).length = 4 :=
  ⟨by decide, (C5_knight_router 1 18 (by decide) ⟨[], none⟩ ⟨[], none⟩ 1 0 2 2
    (by decide)).1.1⟩

end PrinterSim

namespace PrinterSim

/-- C6 counterexample: invoking the knight router on the non-knight move
a1→a2 (offset (+1, 0)) on an empty board does not fail — it silently
returns the corridor route, and the unit-space router likewise returns
its 4-point formula for a non-knight offset. -/
theorem C6_counterexample :
    is_knight_offset ⟨0, 8⟩ = false ∧
    plan_knight_route_on_lines ⟨[], none⟩ ⟨0, 8⟩ =
      some [(340, 2860), (340, 2680), (340, 2500)] ∧
    plan_knight_route_on_lines ⟨[], none⟩ ⟨0, 8⟩ = plan_corridor_path ⟨[], none⟩ 0 8 ∧
    pf_knight_offset (0, 0) (0, 1) = false ∧
    PathFinderPy.path_knight_units (0, 0) (0, 1) =
      [(10, 10), (20, 10), (20, 20), (10, 30)] := by
  decide

lemma knight_offset_false {m : Move} (hm : is_knight_offset m = false) :
    ¬(iabs ((sq_rank m.toSq : ℤ) - (sq_rank m.fromSq : ℤ)) = 2 ∧
        iabs ((sq_file m.toSq : ℤ) - (sq_file m.fromSq : ℤ)) = 1) ∧
    ¬(iabs ((sq_rank m.toSq : ℤ) - (sq_rank m.fromSq : ℤ)) = 1 ∧
        iabs ((sq_file m.toSq : ℤ) - (sq_file m.fromSq : ℤ)) = 2) := by
  constructor <;> rintro ⟨h1, h2⟩ <;>
    simp [is_knight_offset, h1, h2] at hm

/-- C6 amended: on non-knight geometry the router does not fail loudly:
`plan_knight_route_on_lines` silently falls back to the corridor planner,
and pathfinder.py's `path_knight_units` returns its 4-point formula for
every input. -/
theorem C6_amended (b : Board) (m : Move) (hm : is_knight_offset m = false) :
    plan_knight_route_on_lines b m = plan_corridor_path b m.fromSq m.toSq ∧
    ∀ a c : ℕ × ℕ, (PathFinderPy.path_knight_units a c).length = 4 := by
  refine ⟨?_, fun a c => rfl⟩
  obtain ⟨h1, h2⟩ := knight_offset_false hm
  simp [plan_knight_route_on_lines, h1, h2]

/-- C6 amended witness: the a1→a2 instance. -/
theorem C6_amended_witness :
    is_knight_offset ⟨0, 8⟩ = false ∧
    plan_knight_route_on_lines ⟨[], none⟩ ⟨0, 8⟩ = plan_corridor_path ⟨[], none⟩ 0 8 :=
  ⟨by decide, (C6_amended ⟨[], none⟩ ⟨0, 8⟩ (by decide)).1⟩

end PrinterSim

namespace PrinterSim

/-- C7 counterexample: for the captured square e8 (center `(1780, 340)`,
nearest edge: top) and the first black graveyard slot `(3320, 322)`, the
margin route's fourth waypoint `(1780, 322)` — produced before the slot is
entered — lies strictly inside the play area, so the route re-enters the
board interior. -/
theorem C7_counterexample :
    rc_to_center_xy 7 4 = (1780, 340) ∧
    next_grave_xy false 0 0 = (3320, 322) ∧
    plan_margin_escape_path (1780, 340) (3320, 322) =
      [(1780, 340), (1780, 160), (1780, -56), (1780, 322), (3320, 322)] ∧
    inside_play_area ((plan_margin_escape_path (1780, 340) (3320, 322)).getD 3 (0, 0)) =
      true := by
  decide

lemma margin_decomp (cap g : Point) :
    ∃ p4 p5, plan_margin_escape_path cap g =
      (plan_margin_escape_path cap (0, 0)).take 3 ++ [p4, p5] := by
  unfold plan_margin_escape_path
  dsimp only
  split
  case isTrue h => exact ⟨(g.1, cap.2), g, by simp [plan_margin_escape_path, h]⟩
  case isFalse h => exact ⟨(cap.1, g.2), g, by simp [plan_margin_escape_path, h]⟩

lemma margin_prefix_aux :
    ∀ r c : Fin 8,
      ((plan_margin_escape_path (rc_to_center_xy r.1 c.1) (0, 0)).take 3).length = 3 ∧
      ((plan_margin_escape_path (rc_to_center_xy r.1 c.1) (0, 0)).take 3).getD 0 (0, 0) =
        rc_to_center_xy r.1 c.1 ∧
      (((List.range 4).all fun e2 =>
        decide (edge_dist (rc_to_center_xy r.1 c.1)
            (nearestEdge (rc_to_center_xy r.1 c.1).1 (rc_to_center_xy r.1 c.1).2) ≤
          edge_dist (rc_to_center_xy r.1 c.1) e2)) = true) ∧
      ((plan_margin_escape_path (rc_to_center_xy r.1 c.1) (0, 0)).take 3).getD 1 (0, 0) =
        ((rc_to_center_xy r.1 c.1).1 +
            (edge_delta (nearestEdge (rc_to_center_xy r.1 c.1).1 (rc_to_center_xy r.1 c.1).2)).1,
          (rc_to_center_xy r.1 c.1).2 +
            (edge_delta (nearestEdge (rc_to_center_xy r.1 c.1).1 (rc_to_center_xy r.1 c.1).2)).2) ∧
      outside_board
        (((plan_margin_escape_path (rc_to_center_xy r.1 c.1) (0, 0)).take 3).getD 2 (0, 0)) =
        true := by
  decide

/-- C7 amended: for every captured-square center and every graveyard slot,
the margin route has 5 waypoints, starts at the center, picks a nearest
board edge by Manhattan distance, steps half a square toward it and then
to a point strictly outside the board boundary.  The remaining waypoints
up to the slot do not in general stay outside the play area (see the
counterexample), so that part of the claim is dropped. -/
theorem C7_amended (r c : Fin 8) (g : Point) :
    (plan_margin_escape_path (rc_to_center_xy r.1 c.1) g).length = 5 ∧
    (plan_margin_escape_path (rc_to_center_xy r.1 c.1) g).getD 0 (0, 0) =
      rc_to_center_xy r.1 c.1 ∧
    (((List.range 4).all fun e2 =>
      decide (edge_dist (rc_to_center_xy r.1 c.1)
          (nearestEdge (rc_to_center_xy r.1 c.1).1 (rc_to_center_xy r.1 c.1).2) ≤
        edge_dist (rc_to_center_xy r.1 c.1) e2)) = true) ∧
    (plan_margin_escape_path (rc_to_center_xy r.1 c.1) g).getD 1 (0, 0) =
      ((rc_to_center_xy r.1 c.1).1 +
          (edge_delta (nearestEdge (rc_to_center_xy r.1 c.1).1 (rc_to_center_xy r.1 c.1).2)).1,
        (rc_to_center_xy r.1 c.1).2 +
          (edge_delta (nearestEdge (rc_to_center_xy r.1 c.1).1 (rc_to_center_xy r.1 c.1).2)).2) ∧
    outside_board ((plan_margin_escape_path (rc_to_center_xy r.1 c.1) g).getD 2 (0, 0)) =
      true := by
  obtain ⟨p4, p5, hdec⟩ := margin_decomp (rc_to_center_xy r.1 c.1) g
  obtain ⟨hl, h0, hne, h1, h2⟩ := margin_prefix_aux r c
  rw [hdec]
  refine ⟨by rw [List.length_append, hl]; rfl, ?_, hne, ?_, ?_⟩
  · rw [List.getD_append _ _ _ _ (by rw [hl]; norm_num)]
    exact h0
  · rw [List.getD_append _ _ _ _ (by rw [hl]; norm_num)]
    exact h1
  · rw [List.getD_append _ _ _ _ (by rw [hl]; norm_num)]
    exact h2

end PrinterSim

namespace PrinterSim

/-- C8 counterexample: the per-color slot grids coincide, so in a game
where one white piece and one black piece are captured, the first white
capture and the first black capture are assigned the very same Point
`(3320, 322)` — a slot Point is returned twice. -/
theorem C8_counterexample :
    next_grave_xy true 0 0 = next_grave_xy false 1 0 ∧
    next_grave_xy true 0 0 = (3320, 322) ∧
    next_grave_xy false 1 0 = (3320, 322) := by
  decide

lemma grave_positions_length : grave_positions.length = 20 := by decide

lemma grave_grid_inj :
    ∀ i j : Fin 20,
      grave_positions.getD i.1 (0, 0) = grave_positions.getD j.1 (0, 0) → i = j := by
  decide

lemma grave_grid_ne_overflow_x :
    ∀ i : Fin 20, (grave_positions.getD i.1 (0, 0)).1 ≠ 3440 := by
  decide

/-- C8 amended: within one color, slot assignment never returns a Point
twice (the ordinal-to-Point map is injective, including the overflow
lane), and on exhaustion of the 20-slot grid it degrades to the overflow
lane at fixed `x = 3440` with strictly decreasing `y`; pathfinder.py's
single-counter allocator is injective as well.  Across the two colors,
however, the same Point is shared at equal ordinals (see the
counterexample), so the claim's game-wide uniqueness is dropped. -/
theorem C8_amended :
    (∀ i j : ℕ, grave_slot i = grave_slot j → i = j) ∧
    (∀ i : ℕ, 20 ≤ i → grave_slot i = (3440, 3100 - 50 * (i : ℤ))) ∧
    (∀ i j : ℕ, PathFinderPy.pf_next_slot i = PathFinderPy.pf_next_slot j → i = j) := by
  refine ⟨?_, ?_, ?_⟩
  · intro i j h
    unfold grave_slot at h
    rw [grave_positions_length] at h
    by_cases hi : i < 20 <;> by_cases hj : j < 20
    · rw [if_pos hi, if_pos hj] at h
      exact congrArg Fin.val (grave_grid_inj ⟨i, hi⟩ ⟨j, hj⟩ h)
    · rw [if_pos hi, if_neg hj] at h
      exact absurd (congrArg Prod.fst h) (grave_grid_ne_overflow_x ⟨i, hi⟩)
    · rw [if_neg hi, if_pos hj] at h
      exact absurd (congrArg Prod.fst h.symm) (grave_grid_ne_overflow_x ⟨j, hj⟩)
    · rw [if_neg hi, if_neg hj] at h
      have h2 := congrArg Prod.snd h
      simp only at h2
      omega
  · intro i hi
    unfold grave_slot
    rw [grave_positions_length, if_neg (by omega)]
  · intro i j h
    unfold PathFinderPy.pf_next_slot at h
    have hx := congrArg Prod.fst h
    have hy := congrArg Prod.snd h
    simp only at hx hy
    omega

/-- C8 amended witness: ordinals 0 and 1 for one color receive different
Points, and ordinal 20 overflows to the lane. -/
theorem C8_amended_witness :
    grave_slot 0 ≠ grave_slot 1 ∧ grave_slot 20 = (3440, 3100 - 50 * (20 : ℤ)) :=
  ⟨fun h => by simpa using C8_amended.1 0 1 h, C8_amended.2.1 20 (by norm_num)⟩

/-- C10: once the animator's `done` flag is set — as it is immediately
after loading a zero-segment plan — every further `step()` leaves the
whole state unchanged and returns the existing trace, and
`current_magnet_on()` is false. -/
theorem C10_done_frame (s : AnimState) (h : s.done = true) :
    step s = (s, s.lastDrawPath) ∧ (∀ n, stepN s n = s) ∧
    current_magnet_on s = false ∧
    ∀ sp, (Animator.load [] sp).done = true := by
  have hstep : step s = (s, s.lastDrawPath) := by simp [step, h]
  refine ⟨hstep, ?_, by simp [current_magnet_on, h], fun sp => by simp [Animator.load]⟩
  intro n
  induction n with
  | zero => rfl
  | succ n ih => simp [stepN, ih, hstep]

/-- C10 witness: a finished animator state. -/
theorem C10_witness :
    (⟨[], 0, 0, none, true, []⟩ : AnimState).done = true ∧
    step ⟨[], 0, 0, none, true, []⟩ = (⟨[], 0, 0, none, true, []⟩, []) :=
  ⟨rfl, (C10_done_frame ⟨[], 0, 0, none, true, []⟩ rfl).1⟩

end PrinterSim

namespace PrinterSim

/-! ## The Animator: C9 -/

lemma stepN_add (s : AnimState) (a b : ℕ) :
    stepN s (a + b) = stepN (stepN s a) b := by
  induction b with
  | zero => rfl
  | succ n ih => rw [← Nat.add_assoc, stepN, stepN, ih]

lemma step_segments (s : AnimState) : (step s).1.segments = s.segments := by
  unfold step
  split
  · rfl
  · dsimp only
    split
    · simp [advanceSegment]
    · split
      · split
        · simp [advanceSegment]
        · rfl
      · rfl

lemma hypot_nonneg (dx dy : ℝ) : 0 ≤ hypot dx dy :=
  Real.sqrt_nonneg _

lemma hypot_mul (a b c : ℝ) : hypot (a * c) (b * c) = hypot a b * |c| := by
  unfold hypot
  rw [show (a * c) ^ 2 + (b * c) ^ 2 = (a ^ 2 + b ^ 2) * c ^ 2 by ring,
    Real.sqrt_mul (by positivity), Real.sqrt_sq_eq_abs]

lemma step_snap {s : AnimState} {p target : ℝ × ℝ} {seg : ASeg}
    (hdone : s.done = false)
    (hseg : s.segments.getD s.curSegI ⟨[], false⟩ = seg)
    (hne : s.segments ≠ [])
    (hpos : s.pos = some p)
    (hi : s.curWpI < seg.waypoints.length)
    (ht : seg.waypoints.getD s.curWpI (0, 0) = target)
    (hd : hypot (target.1 - p.1) (target.2 - p.2) < 1 / 1000) :
    step s =
      (if seg.waypoints.length ≤ s.curWpI + 1 then
          advanceSegment { s with
            pos := some p
            curWpI := s.curWpI + 1
            lastDrawPath :=
              if seg.magnetOn then s.lastDrawPath ++ [target] else s.lastDrawPath }
        else { s with
          pos := some p
          curWpI := s.curWpI + 1
          lastDrawPath :=
            if seg.magnetOn then s.lastDrawPath ++ [target] else s.lastDrawPath },
       if seg.magnetOn then s.lastDrawPath ++ [target] else s.lastDrawPath) := by
  have hcond : (s.done || s.segments.isEmpty) = false := by
    rw [hdone]
    simpa using hne
  have hwne : seg.waypoints ≠ [] := by
    intro h0
    rw [h0] at hi
    simp at hi
  obtain ⟨w0, ws, hwp⟩ := List.exists_cons_of_ne_nil hwne
  have hh : seg.waypoints.head? = some w0 := by
    rw [hwp]
    rfl
  unfold step
  rw [hcond, if_neg Bool.false_ne_true]
  dsimp only
  simp only [hseg, hh, hpos, Option.getD_some, ht]
  rw [if_pos hd]

lemma step_move {s : AnimState} {p target : ℝ × ℝ} {seg : ASeg} {speed : ℝ}
    (hdone : s.done = false)
    (hseg : s.segments.getD s.curSegI ⟨[], false⟩ = seg)
    (hne : s.segments ≠ [])
    (hpos : s.pos = some p)
    (hi : s.curWpI < seg.waypoints.length)
    (ht : seg.waypoints.getD s.curWpI (0, 0) = target)
    (hsp : speed = if seg.magnetOn then (5 : ℝ) else 8)
    (hd : ¬ hypot (target.1 - p.1) (target.2 - p.2) < 1 / 1000) :
    ∃ q u, step s = ({ s with
        pos := some q
        lastDrawPath := s.lastDrawPath ++ u },
        s.lastDrawPath ++ u) ∧
      (seg.magnetOn = false → u = []) ∧
      (hypot (target.1 - p.1) (target.2 - p.2) ≤ speed →
        hypot (target.1 - q.1) (target.2 - q.2) < 1 / 1000) ∧
      (speed < hypot (target.1 - p.1) (target.2 - p.2) →
        hypot (target.1 - q.1) (target.2 - q.2) ≤
          hypot (target.1 - p.1) (target.2 - p.2) - 4) := by
  have hcond : (s.done || s.segments.isEmpty) = false := by
    rw [hdone]
    simpa using hne
  have hwne : seg.waypoints ≠ [] := by
    intro h0
    rw [h0] at hi
    simp at hi
  obtain ⟨w0, ws, hwp⟩ := List.exists_cons_of_ne_nil hwne
  have hh : seg.waypoints.head? = some w0 := by
    rw [hwp]
    rfl
  · set dx := target.1 - p.1 with hdx
    set dy := target.2 - p.2 with hdy
    set d := hypot dx dy with hdd
    have hd0 : (1 : ℝ) / 1000 ≤ d := not_lt.mp hd
    have hdpos : (0 : ℝ) < d := lt_of_lt_of_le (by norm_num) hd0
    set ε : ℝ := 1 / 1000000000 with he
    have hD : (0 : ℝ) < d + ε := by
      rw [he]
      linarith
    set stp := min speed d with hst
    set nx := p.1 + dx / (d + ε) * stp with hnx
    set ny := p.2 + dy / (d + ε) * stp with hny
    have hstle : stp ≤ d := min_le_right _ _
    have hsp5 : (5 : ℝ) ≤ speed := by
      rw [hsp]
      split <;> norm_num
    have hq1 : target.1 - nx = dx * ((d + ε - stp) / (d + ε)) := by
      rw [hnx]
      field_simp
      ring
    have hq2 : target.2 - ny = dy * ((d + ε - stp) / (d + ε)) := by
      rw [hny]
      field_simp
      ring
    have hlam : (0 : ℝ) ≤ (d + ε - stp) / (d + ε) := by
      apply div_nonneg _ (le_of_lt hD)
      rw [he]
      linarith
    have hnd : hypot (target.1 - nx) (target.2 - ny) = d * ((d + ε - stp) / (d + ε)) := by
      rw [hq1, hq2, hypot_mul, abs_of_nonneg hlam, hdd]
    have hcase1 : d ≤ speed → hypot (target.1 - nx) (target.2 - ny) < 1 / 1000 := by
      intro hds
      have hstp : stp = d := min_eq_right hds
      rw [hnd, hstp]
      have : d * ((d + ε - d) / (d + ε)) = d * ε / (d + ε) := by
        ring_nf
      rw [this, div_lt_iff hD, he]
      nlinarith [hdpos]
    have hcase2 : speed < d → hypot (target.1 - nx) (target.2 - ny) ≤ d - 4 := by
      intro hds
      have hstp : stp = speed := min_eq_left (le_of_lt hds)
      rw [hnd, hstp]
      have h1 : d * ((d + ε - speed) / (d + ε)) = d * (d + ε - speed) / (d + ε) := by
        ring
      rw [h1, div_le_iff hD, he]
      nlinarith [hdpos, hsp5, hds]
    refine ⟨(nx, ny), ?_⟩
    have hstep : step s = ({ s with
        pos := some (nx, ny)
        lastDrawPath :=
          if seg.magnetOn then
            match s.lastDrawPath.getLast? with
            | none => s.lastDrawPath ++ [(nx, ny)]
            | some l =>
              if 1 / 2 < |nx - l.1| + |ny - l.2| then s.lastDrawPath ++ [(nx, ny)]
              else s.lastDrawPath
          else s.lastDrawPath },
        if seg.magnetOn then
          match s.lastDrawPath.getLast? with
          | none => s.lastDrawPath ++ [(nx, ny)]
          | some l =>
            if 1 / 2 < |nx - l.1| + |ny - l.2| then s.lastDrawPath ++ [(nx, ny)]
            else s.lastDrawPath
        else s.lastDrawPath) := by
      unfold step
      rw [hcond, if_neg Bool.false_ne_true]
      dsimp only
      simp only [hseg, hh, hpos, Option.getD_some, ht, ← hsp]
      rw [if_neg hd]
    rcases hmag : seg.magnetOn with _ | _
    · rw [hmag] at hstep
      refine ⟨[], ?_, fun _ => rfl, hcase1, hcase2⟩
      simpa using hstep
    · rw [hmag] at hstep
      rcases hlast : s.lastDrawPath.getLast? with _ | l
      · simp only [hlast] at hstep
        exact ⟨[(nx, ny)], by simpa using hstep, by simp, hcase1, hcase2⟩
      · simp only [hlast] at hstep
        by_cases hded : 1 / 2 < |nx - l.1| + |ny - l.2|
        · rw [if_pos hded] at hstep
          exact ⟨[(nx, ny)], by simpa using hstep, by simp, hcase1, hcase2⟩
        · rw [if_neg hded] at hstep
          refine ⟨[], ?_, fun _ => rfl, hcase1, hcase2⟩
          simpa using hstep

lemma reach_base (s : AnimState) (p target : ℝ × ℝ) (seg : ASeg)
    (hdone : s.done = false)
    (hseg : s.segments.getD s.curSegI ⟨[], false⟩ = seg)
    (hne : s.segments ≠ [])
    (hpos : s.pos = some p)
    (hi : s.curWpI < seg.waypoints.length)
    (ht : seg.waypoints.getD s.curWpI (0, 0) = target)
    (hd : hypot (target.1 - p.1) (target.2 - p.2) < 1 / 1000) :
    ∃ p' tail,
      stepN s 1 =
        (if seg.waypoints.length ≤ s.curWpI + 1 then
          advanceSegment { s with
            pos := some p'
            curWpI := s.curWpI + 1
            lastDrawPath := s.lastDrawPath ++ tail }
        else { s with
          pos := some p'
          curWpI := s.curWpI + 1
          lastDrawPath := s.lastDrawPath ++ tail }) ∧
      (seg.magnetOn = true → ∃ mids, tail = mids ++ [target]) ∧
      (seg.magnetOn = false → tail = []) := by
  have hsnap := step_snap hdone hseg hne hpos hi ht hd
  have htr : (if seg.magnetOn then s.lastDrawPath ++ [target] else s.lastDrawPath) =
      s.lastDrawPath ++ (if seg.magnetOn then [target] else []) := by
    cases seg.magnetOn <;> simp
  refine ⟨p, if seg.magnetOn then [target] else [], ?_, ?_, ?_⟩
  · have h1 : stepN s 1 = (step s).1 := by
      simp only [stepN]
    rw [h1, hsnap, htr]
  · intro hm
    exact ⟨[], by simp [hm]⟩
  · intro hm
    simp [hm]

lemma reach_wp (n : ℕ) : ∀ (s : AnimState) (p target : ℝ × ℝ) (seg : ASeg),
    s.done = false →
    s.segments.getD s.curSegI ⟨[], false⟩ = seg →
    s.segments ≠ [] →
    s.pos = some p →
    s.curWpI < seg.waypoints.length →
    seg.waypoints.getD s.curWpI (0, 0) = target →
    hypot (target.1 - p.1) (target.2 - p.2) ≤ (n : ℝ) →
    ∃ k p' tail,
      stepN s (k + 1) =
        (if seg.waypoints.length ≤ s.curWpI + 1 then
          advanceSegment { s with
            pos := some p'
            curWpI := s.curWpI + 1
            lastDrawPath := s.lastDrawPath ++ tail }
        else { s with
          pos := some p'
          curWpI := s.curWpI + 1
          lastDrawPath := s.lastDrawPath ++ tail }) ∧
      (seg.magnetOn = true → ∃ mids, tail = mids ++ [target]) ∧
      (seg.magnetOn = false → tail = []) := by
  induction n with
  | zero =>
    intro s p target seg hdone hseg hne hpos hi ht hdist
    have hd : hypot (target.1 - p.1) (target.2 - p.2) < 1 / 1000 := by
      have h0 := hypot_nonneg (target.1 - p.1) (target.2 - p.2)
      have : hypot (target.1 - p.1) (target.2 - p.2) = 0 := le_antisymm (by simpa using hdist) h0
      rw [this]
      norm_num
    obtain ⟨p', tail, h1, h2, h3⟩ := reach_base s p target seg hdone hseg hne hpos hi ht hd
    exact ⟨0, p', tail, h1, h2, h3⟩
  | succ n ih =>
    intro s p target seg hdone hseg hne hpos hi ht hdist
    by_cases hd : hypot (target.1 - p.1) (target.2 - p.2) < 1 / 1000
    · obtain ⟨p', tail, h1, h2, h3⟩ := reach_base s p target seg hdone hseg hne hpos hi ht hd
      exact ⟨0, p', tail, h1, h2, h3⟩
    · obtain ⟨q, u, hstep, hu0, hc1, hc2⟩ :=
        step_move hdone hseg hne hpos hi ht rfl hd
      have hs1 : stepN s 1 = { s with
          pos := some q
          lastDrawPath := s.lastDrawPath ++ u } := by
        have h1 : stepN s 1 = (step s).1 := by
          simp only [stepN]
        rw [h1, hstep]
      by_cases hds :
          hypot (target.1 - p.1) (target.2 - p.2) ≤ (if seg.magnetOn then (5 : ℝ) else 8)
      · have hd2 := hc1 hds
        obtain ⟨p', tail, h1, h2, h3⟩ := reach_base ({ s with
            pos := some q
            lastDrawPath := s.lastDrawPath ++ u })
          q target seg hdone hseg hne rfl hi ht hd2
        refine ⟨1, p', u ++ tail, ?_, ?_, ?_⟩
        · have hadd : (1 + 1 : ℕ) = 1 + 1 := rfl
          rw [show (1 + 1 : ℕ) = 1 + 1 from rfl, stepN_add, hs1, h1]
          dsimp only
          simp only [List.append_assoc]
        · intro hm
          obtain ⟨mids, hmid⟩ := h2 hm
          exact ⟨u ++ mids, by rw [hmid, List.append_assoc]⟩
        · intro hm
          rw [hu0 hm, h3 hm]
          rfl
      · have hgt : (if seg.magnetOn then (5 : ℝ) else 8) <
            hypot (target.1 - p.1) (target.2 - p.2) := not_le.mp hds
        have hd2 := hc2 hgt
        have hsp5 : (5 : ℝ) ≤ (if seg.magnetOn then (5 : ℝ) else 8) := by
          split <;> norm_num
        have hdist2 : hypot (target.1 - q.1) (target.2 - q.2) ≤ (n : ℝ) := by
          push_cast at hdist
          linarith
        obtain ⟨k, p', tail, h1, h2, h3⟩ := ih ({ s with
            pos := some q
            lastDrawPath := s.lastDrawPath ++ u })
          q target seg hdone hseg hne rfl hi ht hdist2
        refine ⟨k + 1, p', u ++ tail, ?_, ?_, ?_⟩
        · rw [show k + 1 + 1 = 1 + (k + 1) by omega, stepN_add, hs1, h1]
          dsimp only
          simp only [List.append_assoc]
        · intro hm
          obtain ⟨mids, hmid⟩ := h2 hm
          exact ⟨u ++ mids, by rw [hmid, List.append_assoc]⟩
        · intro hm
          rw [hu0 hm, h3 hm]
          rfl

lemma run_seg (j : ℕ) : ∀ (s : AnimState) (p : ℝ × ℝ) (seg : ASeg),
    s.done = false →
    s.segments.getD s.curSegI ⟨[], false⟩ = seg →
    s.segments ≠ [] →
    s.pos = some p →
    s.curWpI < seg.waypoints.length →
    seg.waypoints.length - s.curWpI = j →
    ∃ k p' tail,
      stepN s k = AnimState.mk s.segments (s.curSegI + 1) 0 (some p')
        (decide (s.segments.length ≤ s.curSegI + 1)) (s.lastDrawPath ++ tail) ∧
      (seg.magnetOn = true → (seg.waypoints.drop s.curWpI).Sublist tail) ∧
      (seg.magnetOn = false → tail = []) := by
  induction j with
  | zero =>
    intro s p seg hdone hseg hne hpos hi hj
    omega
  | succ j ihj =>
    intro s p seg hdone hseg hne hpos hi hj
    set target := seg.waypoints.getD s.curWpI (0, 0) with htd
    have hdist : hypot (target.1 - p.1) (target.2 - p.2) ≤
        ((Nat.ceil (hypot (target.1 - p.1) (target.2 - p.2)) : ℕ) : ℝ) :=
      Nat.le_ceil _
    obtain ⟨k, p', tail1, heq, hm, hm0⟩ :=
      reach_wp _ s p target seg hdone hseg hne hpos hi rfl hdist
    have hdrop : seg.waypoints.drop s.curWpI =
        target :: seg.waypoints.drop (s.curWpI + 1) := by
      rw [List.drop_eq_getElem_cons hi, htd, List.getD_eq_getElem _ _ hi]
    by_cases hlen : seg.waypoints.length ≤ s.curWpI + 1
    · rw [if_pos hlen] at heq
      refine ⟨k + 1, p', tail1, ?_, ?_, hm0⟩
      · rw [heq]
        simp only [advanceSegment, hdone]
        rfl
      · intro hmag
        obtain ⟨mids, hmid⟩ := hm hmag
        have hd2 : seg.waypoints.drop (s.curWpI + 1) = [] :=
          List.drop_eq_nil_of_le hlen
        rw [hdrop, hd2, hmid]
        exact List.sublist_append_right mids [target]
    · rw [if_neg hlen] at heq
      have hi2 : s.curWpI + 1 < seg.waypoints.length := by
        omega
      obtain ⟨k2, p2, tail2, heq2, hm2, hm02⟩ := ihj ({ s with
          pos := some p'
          curWpI := s.curWpI + 1
          lastDrawPath := s.lastDrawPath ++ tail1 })
        p' seg hdone hseg hne rfl hi2 (by simp; omega)
      refine ⟨k + 1 + k2, p2, tail1 ++ tail2, ?_, ?_, ?_⟩
      · rw [stepN_add, heq, heq2]
        dsimp only
        simp only [List.append_assoc]
      · intro hmag
        obtain ⟨mids, hmid⟩ := hm hmag
        have hsub2 := hm2 hmag
        rw [hdrop, hmid]
        have hsub3 : List.Sublist (seg.waypoints.drop (s.curWpI + 1)) tail2 := by
          simpa using hsub2
        have h1 : List.Sublist (target :: seg.waypoints.drop (s.curWpI + 1))
            (target :: tail2) := hsub3.cons₂ target
        have h2 : List.Sublist (target :: tail2) ((mids ++ [target]) ++ tail2) := by
          rw [List.append_assoc]
          exact List.sublist_append_right mids (target :: tail2)
        exact h1.trans h2
      · intro hmag
        rw [hm0 hmag, hm02 hmag]
        rfl

lemma magnet_two_seg (wps : List (ℝ × ℝ)) (w : ℝ × ℝ) (s : AnimState)
    (hs : s.segments = [⟨wps, true⟩, ⟨[w], false⟩]) :
    current_magnet_on s = (!s.done && decide (s.curSegI = 0)) := by
  unfold current_magnet_on
  rw [hs]
  rcases hdone : s.done with _ | _
  · rcases hcs : s.curSegI with _ | k
    · simp
    · rcases k with _ | k2 <;> simp [List.getD]
  · simp

lemma step_trace_frame (s : AnimState) (h : current_magnet_on s = false) :
    (step s).1.lastDrawPath = s.lastDrawPath := by
  by_cases hc : (s.done || s.segments.isEmpty) = true
  · unfold step
    rw [if_pos hc]
  · have hmag : (s.segments.getD s.curSegI ⟨[], false⟩).magnetOn = false := by
      unfold current_magnet_on at h
      rw [if_neg hc] at h
      exact h
    unfold step
    rw [if_neg hc]
    try dsimp only
    rcases hw : (s.segments.getD s.curSegI ⟨[], false⟩).waypoints with _ | ⟨w0, ws⟩
    · simp [advanceSegment]
    · simp only [List.head?_cons]
      try dsimp only
      simp only [hmag, Bool.false_eq_true, if_false]
      split
      · split <;> simp [advanceSegment]
      · rfl

lemma stepN_segments (s : AnimState) (n : ℕ) : (stepN s n).segments = s.segments := by
  induction n with
  | zero => rfl
  | succ n ih => rw [stepN, step_segments, ih]

/-- C9, amended: for a 2-segment plan (engaged travel then zero-length
disengage), the animation terminates with the done flag set, the final
trace contains all of segment 1's waypoints in order (as a sublist —
interleaved with possible intermediate movement points), the magnet is
engaged exactly while the first segment is active, and no tick taken
while disengaged changes the trace. -/
theorem C9_amended (wps : List (ℝ × ℝ)) (w : ℝ × ℝ) (hw : wps ≠ []) :
    (∃ N, (stepN (Animator.load [⟨wps, true⟩, ⟨[w], false⟩] none) N).done = true ∧
      List.Sublist wps
        ((stepN (Animator.load [⟨wps, true⟩, ⟨[w], false⟩] none) N).lastDrawPath)) ∧
    (∀ n, current_magnet_on (stepN (Animator.load [⟨wps, true⟩, ⟨[w], false⟩] none) n) =
      (!(stepN (Animator.load [⟨wps, true⟩, ⟨[w], false⟩] none) n).done &&
        decide ((stepN (Animator.load [⟨wps, true⟩, ⟨[w], false⟩] none) n).curSegI = 0))) ∧
    (∀ n, current_magnet_on (stepN (Animator.load [⟨wps, true⟩, ⟨[w], false⟩] none) n) =
        false →
      (stepN (Animator.load [⟨wps, true⟩, ⟨[w], false⟩] none) (n + 1)).lastDrawPath =
        (stepN (Animator.load [⟨wps, true⟩, ⟨[w], false⟩] none) n).lastDrawPath) := by
  obtain ⟨w0, ws, rfl⟩ := List.exists_cons_of_ne_nil hw
  have hload : Animator.load [⟨w0 :: ws, true⟩, ⟨[w], false⟩] none =
      AnimState.mk [⟨w0 :: ws, true⟩, ⟨[w], false⟩] 0 0 (some w0) false [] := by
    simp [Animator.load]
  refine ⟨?_, ?_, ?_⟩
  · obtain ⟨k, p', tail, heq, hmg, -⟩ :=
      run_seg ((w0 :: ws).length)
        (AnimState.mk [⟨w0 :: ws, true⟩, ⟨[w], false⟩] 0 0 (some w0) false [])
        w0 ⟨w0 :: ws, true⟩ rfl rfl (by simp) rfl (by simp) rfl
    obtain ⟨k2, p2, tail2, heq2, -, hm02⟩ :=
      run_seg 1
        (AnimState.mk [⟨w0 :: ws, true⟩, ⟨[w], false⟩] 1 0 (some p') false tail)
        p' ⟨[w], false⟩ rfl rfl (by simp) rfl (by simp) rfl
    have hS1 : AnimState.mk [⟨w0 :: ws, true⟩, ⟨[w], false⟩] (0 + 1) 0 (some p')
        (decide (([⟨w0 :: ws, true⟩, ⟨[w], false⟩] : List ASeg).length ≤ 0 + 1))
        ([] ++ tail) =
        AnimState.mk [⟨w0 :: ws, true⟩, ⟨[w], false⟩] 1 0 (some p') false tail := by
      simp
    have hfin : stepN (Animator.load [⟨w0 :: ws, true⟩, ⟨[w], false⟩] none) (k + k2) =
        AnimState.mk [⟨w0 :: ws, true⟩, ⟨[w], false⟩] (1 + 1) 0 (some p2)
          (decide (([⟨w0 :: ws, true⟩, ⟨[w], false⟩] : List ASeg).length ≤ 1 + 1))
          (tail ++ tail2) := by
      rw [hload, stepN_add, heq, hS1, heq2]
    refine ⟨k + k2, ?_, ?_⟩
    · rw [hfin]
      simp
    · rw [hfin]
      have h2 : tail2 = [] := hm02 rfl
      subst h2
      simpa using hmg rfl
  · intro n
    exact magnet_two_seg (w0 :: ws) w _ (by rw [stepN_segments, hload])
  · intro n h
    rw [stepN]
    exact step_trace_frame _ h

/-- C9 amended witness: the one-waypoint engaged plan terminates with its
waypoint in the trace. -/
theorem C9_witness :
    ([((0 : ℝ), (0 : ℝ))] : List (ℝ × ℝ)) ≠ [] ∧
    (∃ N, (stepN (Animator.load [⟨[((0 : ℝ), (0 : ℝ))], true⟩,
        ⟨[((0 : ℝ), (0 : ℝ))], false⟩] none) N).done = true ∧
      List.Sublist [((0 : ℝ), (0 : ℝ))]
        ((stepN (Animator.load [⟨[((0 : ℝ), (0 : ℝ))], true⟩,
          ⟨[((0 : ℝ), (0 : ℝ))], false⟩] none) N).lastDrawPath)) :=
  ⟨by simp, (C9_amended [((0 : ℝ), (0 : ℝ))] ((0 : ℝ), (0 : ℝ)) (by simp)).1⟩

set_option maxHeartbeats 2000000 in
/-- C9 counterexample: on the 2-segment plan with engaged waypoints
`(0,0), (10,0)`, the second tick moves the position to
`x = 50000000000/10000000001` (the guard `1e-9` keeps it just short of
halfway to the speed-5 step) and appends that intermediate point to the
trace: the accumulated trace does not contain segment 1's waypoints
only, and the appended point was not appended by a snap. -/
theorem C9_counterexample :
    (stepN (Animator.load [⟨[((0 : ℝ), (0 : ℝ)), ((10 : ℝ), (0 : ℝ))], true⟩,
        ⟨[((10 : ℝ), (0 : ℝ))], false⟩] none) 2).lastDrawPath =
      [((0 : ℝ), (0 : ℝ)), ((50000000000 / 10000000001 : ℝ), (0 : ℝ))] ∧
    ((50000000000 / 10000000001 : ℝ), (0 : ℝ)) ∉
      ([((0 : ℝ), (0 : ℝ)), ((10 : ℝ), (0 : ℝ))] : List (ℝ × ℝ)) ∧
    current_magnet_on (stepN (Animator.load [⟨[((0 : ℝ), (0 : ℝ)), ((10 : ℝ), (0 : ℝ))],
        true⟩, ⟨[((10 : ℝ), (0 : ℝ))], false⟩] none) 1) = true := by
  have hload : Animator.load [⟨[((0 : ℝ), (0 : ℝ)), ((10 : ℝ), (0 : ℝ))], true⟩,
      ⟨[((10 : ℝ), (0 : ℝ))], false⟩] none =
      AnimState.mk [⟨[((0 : ℝ), (0 : ℝ)), ((10 : ℝ), (0 : ℝ))], true⟩,
        ⟨[((10 : ℝ), (0 : ℝ))], false⟩] 0 0 (some ((0 : ℝ), (0 : ℝ))) false [] := by
    simp [Animator.load]
  have hz : hypot ((((0 : ℝ), (0 : ℝ)) : ℝ × ℝ).1 - (((0 : ℝ), (0 : ℝ)) : ℝ × ℝ).1)
      ((((0 : ℝ), (0 : ℝ)) : ℝ × ℝ).2 - (((0 : ℝ), (0 : ℝ)) : ℝ × ℝ).2) < 1 / 1000 := by
    unfold hypot
    rw [show ((((0 : ℝ), (0 : ℝ)) : ℝ × ℝ).1 - (((0 : ℝ), (0 : ℝ)) : ℝ × ℝ).1) ^ 2 +
      ((((0 : ℝ), (0 : ℝ)) : ℝ × ℝ).2 - (((0 : ℝ), (0 : ℝ)) : ℝ × ℝ).2) ^ 2 =
      (0 : ℝ) by norm_num, Real.sqrt_zero]
    norm_num
  have h1 : step (AnimState.mk [⟨[((0 : ℝ), (0 : ℝ)), ((10 : ℝ), (0 : ℝ))], true⟩,
      ⟨[((10 : ℝ), (0 : ℝ))], false⟩] 0 0 (some ((0 : ℝ), (0 : ℝ))) false []) =
      (AnimState.mk [⟨[((0 : ℝ), (0 : ℝ)), ((10 : ℝ), (0 : ℝ))], true⟩,
        ⟨[((10 : ℝ), (0 : ℝ))], false⟩] 0 1 (some ((0 : ℝ), (0 : ℝ))) false
        [((0 : ℝ), (0 : ℝ))],
       [((0 : ℝ), (0 : ℝ))]) := by
    rw [@step_snap (AnimState.mk [⟨[((0 : ℝ), (0 : ℝ)), ((10 : ℝ), (0 : ℝ))], true⟩,
        ⟨[((10 : ℝ), (0 : ℝ))], false⟩] 0 0 (some ((0 : ℝ), (0 : ℝ))) false [])
      ((0 : ℝ), (0 : ℝ)) ((0 : ℝ), (0 : ℝ))
      ⟨[((0 : ℝ), (0 : ℝ)), ((10 : ℝ), (0 : ℝ))], true⟩
      rfl rfl (by simp) rfl (by simp) rfl hz]
    norm_num
  have hs : Real.sqrt (100 : ℝ) = 10 := by
    rw [show (100 : ℝ) = 10 ^ 2 by norm_num]
    exact Real.sqrt_sq (by norm_num)
  have habs : |(50000000000 / 10000000001 : ℝ)| = 50000000000 / 10000000001 :=
    abs_of_pos (by norm_num)
  have h2 : step (AnimState.mk [⟨[((0 : ℝ), (0 : ℝ)), ((10 : ℝ), (0 : ℝ))], true⟩,
      ⟨[((10 : ℝ), (0 : ℝ))], false⟩] 0 1 (some ((0 : ℝ), (0 : ℝ))) false
      [((0 : ℝ), (0 : ℝ))]) =
      (AnimState.mk [⟨[((0 : ℝ), (0 : ℝ)), ((10 : ℝ), (0 : ℝ))], true⟩,
        ⟨[((10 : ℝ), (0 : ℝ))], false⟩] 0 1
        (some ((50000000000 / 10000000001 : ℝ), (0 : ℝ))) false
        [((0 : ℝ), (0 : ℝ)), ((50000000000 / 10000000001 : ℝ), (0 : ℝ))],
       [((0 : ℝ), (0 : ℝ)), ((50000000000 / 10000000001 : ℝ), (0 : ℝ))]) := by
    unfold step
    norm_num [hypot, hs, min_def, habs]
  refine ⟨?_, ?_, ?_⟩
  · show (step (step (Animator.load _ none)).1).1.lastDrawPath = _
    rw [hload, h1]
    dsimp only
    rw [h2]
  · intro hmem
    rcases List.mem_cons.mp hmem with h | h
    · rw [Prod.mk.injEq] at h
      have h0 := h.1
      norm_num at h0
    · rcases List.mem_cons.mp h with h' | h'
      · rw [Prod.mk.injEq] at h'
        have h0 := h'.1
        norm_num at h0
      · simp at h'
  · show current_magnet_on (step (Animator.load _ none)).1 = true
    rw [hload, h1]
    rfl

end PrinterSim
